import Mathlib

/-!
# Verification of the IRT-Wizard estimation core

Shallow embedding of `backend/app/core/irt_engine.py` and
`backend/app/core/polytomous_engine.py` over the real numbers, together
with theorems settling the frozen claims about the engine.

Conventions:
* numpy float arithmetic is modelled by `ℝ`;
* a response matrix is a total function `ℕ → ℕ → Option _` together with
  explicit dimensions `nP` (persons) and `nI` (items); `none` models a
  NaN (missing) cell;
* calls into the external `girth` library are modelled by oracle
  parameters supplying the optimizer's output (`none` models the call
  raising an exception or timing out).
-/

namespace IRTWizard

noncomputable section

open Finset

/-- numpy's `np.clip(x, lo, hi)`. -/
def npClip (x lo hi : ℝ) : ℝ := min hi (max lo x)

/-- `ModelType` enum from `irt_engine.py`. -/
inductive ModelType where
  | ONE_PL
  | TWO_PL
  | THREE_PL
  | RSM
  | PCM
deriving DecidableEq, Repr

/-- `EstimationMode` enum from `polytomous_engine.py`. -/
inductive EstimationMode where
  | AUTO
  | MML
  | JMLE
deriving DecidableEq, Repr

/-- `is_polytomous_model` from `polytomous_engine.py`. -/
def is_polytomous_model (mt : ModelType) : Bool :=
  mt = ModelType.RSM ∨ mt = ModelType.PCM

/-- Mean of `f 0, …, f (n-1)` (numpy `np.mean` over an array of length `n`). -/
def meanRange (f : ℕ → ℝ) (n : ℕ) : ℝ := (∑ i ∈ Finset.range n, f i) / n

/-- Population standard deviation (numpy `np.std`). -/
def stdRange (f : ℕ → ℝ) (n : ℕ) : ℝ :=
  Real.sqrt (meanRange (fun i => (f i - meanRange f n) ^ 2) n)

/-- Mean of a list of reals (numpy `np.mean` on a 1-D array). -/
def listMean (l : List ℝ) : ℝ := l.sum / l.length

/-!
## `compute_category_probability` (polytomous_engine.py lines 584-624)
-/

/-- One term of the cumulative sum in `compute_category_probability`:
the loop body adds `theta - difficulty - thresholds[j]` when
`j < len(thresholds)` and `theta - difficulty` otherwise. -/
def thresholdTerm (theta difficulty : ℝ) (thresholds : List ℝ) (j : ℕ) : ℝ :=
  if j < thresholds.length then theta - difficulty - thresholds.getD j 0
  else theta - difficulty

/-- The cumulative sum `cumsum` computed for category `k`. -/
def categoryCumsum (theta difficulty : ℝ) (thresholds : List ℝ) (k : ℕ) : ℝ :=
  ∑ j ∈ Finset.range k, thresholdTerm theta difficulty thresholds j

/-- `numerators[k] = np.exp(np.clip(cumsum, -700, 700))`. -/
def categoryNumerator (theta difficulty : ℝ) (thresholds : List ℝ) (k : ℕ) : ℝ :=
  Real.exp (npClip (categoryCumsum theta difficulty thresholds k) (-700) 700)

/-- `denominator = np.sum(numerators)` over the `len(thresholds) + 1` categories. -/
def categoryDenominator (theta difficulty : ℝ) (thresholds : List ℝ) : ℝ :=
  ∑ k ∈ Finset.range (thresholds.length + 1),
    categoryNumerator theta difficulty thresholds k

/-- `compute_category_probability(theta, difficulty, thresholds, category)`. -/
def compute_category_probability (theta difficulty : ℝ) (thresholds : List ℝ)
    (category : ℕ) : ℝ :=
  if categoryDenominator theta difficulty thresholds < 1e-10 then
    1 / (thresholds.length + 1)
  else
    categoryNumerator theta difficulty thresholds category /
      categoryDenominator theta difficulty thresholds

theorem categoryNumerator_pos (theta difficulty : ℝ) (thresholds : List ℝ) (k : ℕ) :
    0 < categoryNumerator theta difficulty thresholds k :=
  Real.exp_pos _

theorem categoryNumerator_zero (theta difficulty : ℝ) (thresholds : List ℝ) :
    categoryNumerator theta difficulty thresholds 0 = 1 := by
  simp [categoryNumerator, categoryCumsum, npClip]

theorem one_le_categoryDenominator (theta difficulty : ℝ) (thresholds : List ℝ) :
    1 ≤ categoryDenominator theta difficulty thresholds := by
  have h0 : categoryNumerator theta difficulty thresholds 0 = 1 :=
    categoryNumerator_zero theta difficulty thresholds
  calc (1 : ℝ) = categoryNumerator theta difficulty thresholds 0 := h0.symm
    _ ≤ categoryDenominator theta difficulty thresholds := by
        apply Finset.single_le_sum (f := fun k =>
          categoryNumerator theta difficulty thresholds k)
        · intro k _
          exact (categoryNumerator_pos theta difficulty thresholds k).le
        · simp

theorem categoryDenominator_not_small (theta difficulty : ℝ) (thresholds : List ℝ) :
    ¬ categoryDenominator theta difficulty thresholds < 1e-10 := by
  have h := one_le_categoryDenominator theta difficulty thresholds
  norm_num
  linarith

theorem categoryDenominator_pos (theta difficulty : ℝ) (thresholds : List ℝ) :
    0 < categoryDenominator theta difficulty thresholds :=
  lt_of_lt_of_le one_pos (one_le_categoryDenominator theta difficulty thresholds)

theorem compute_category_probability_eq (theta difficulty : ℝ) (thresholds : List ℝ)
    (category : ℕ) :
    compute_category_probability theta difficulty thresholds category =
      categoryNumerator theta difficulty thresholds category /
        categoryDenominator theta difficulty thresholds := by
  rw [compute_category_probability,
    if_neg (categoryDenominator_not_small theta difficulty thresholds)]

theorem compute_category_probability_nonneg (theta difficulty : ℝ)
    (thresholds : List ℝ) (category : ℕ) :
    0 ≤ compute_category_probability theta difficulty thresholds category := by
  rw [compute_category_probability_eq]
  exact div_nonneg (categoryNumerator_pos theta difficulty thresholds category).le
    (categoryDenominator_pos theta difficulty thresholds).le

theorem sum_compute_category_probability (theta difficulty : ℝ) (thresholds : List ℝ) :
    ∑ m ∈ Finset.range (thresholds.length + 1),
      compute_category_probability theta difficulty thresholds m = 1 := by
  have hden := categoryDenominator_pos theta difficulty thresholds
  calc ∑ m ∈ Finset.range (thresholds.length + 1),
        compute_category_probability theta difficulty thresholds m
      = (∑ m ∈ Finset.range (thresholds.length + 1),
          categoryNumerator theta difficulty thresholds m) /
          categoryDenominator theta difficulty thresholds := by
        rw [Finset.sum_div]
        exact Finset.sum_congr rfl fun m _ => compute_category_probability_eq _ _ _ m
    _ = 1 := div_self hden.ne'

/-- C1: For every real theta, real difficulty, threshold vector tau of length
K-1 (K ≥ 2), and category index k in 0..K-1,
`compute_category_probability(theta, difficulty, tau, k)` is nonnegative,
summing it over all k in 0..K-1 yields 1 within 1e-6, and whenever the
denominator (the sum of clamped-exponent terms) falls below 1e-10 the
function returns the uniform value 1/K. -/
theorem C1_category_probability_simplex (theta difficulty : ℝ) (tau : List ℝ)
    (k : ℕ) (hK : 1 ≤ tau.length) (hk : k < tau.length + 1) :
    0 ≤ compute_category_probability theta difficulty tau k ∧
    |(∑ m ∈ Finset.range (tau.length + 1),
        compute_category_probability theta difficulty tau m) - 1| ≤ 1e-6 ∧
    (categoryDenominator theta difficulty tau < 1e-10 →
      compute_category_probability theta difficulty tau k = 1 / (tau.length + 1)) := by
  refine ⟨compute_category_probability_nonneg theta difficulty tau k, ?_, ?_⟩
  · rw [sum_compute_category_probability]
    norm_num
  · intro hden
    rw [compute_category_probability, if_pos hden]

theorem C1_category_probability_simplex_witness :
    0 ≤ compute_category_probability 0 0 [(0 : ℝ)] 0 ∧
    |(∑ m ∈ Finset.range 2, compute_category_probability 0 0 [(0 : ℝ)] m) - 1| ≤ 1e-6 := by
  have h := C1_category_probability_simplex 0 0 [(0 : ℝ)] 0 (by simp) (by simp)
  exact ⟨h.1, by simpa using h.2.1⟩

/-!
## Dichotomous engine (`irt_engine.py`)
-/

/-- `compute_probability(theta, difficulty, discrimination, guessing)`
(irt_engine.py lines 172-177): the 3PL logistic curve with its exponent
clamped to `[-700, 700]`. -/
def compute_probability (theta difficulty discrimination guessing : ℝ) : ℝ :=
  guessing + (1 - guessing) /
    (1 + Real.exp (-(npClip (discrimination * (theta - difficulty)) (-700) 700)))

/-- `compute_log_likelihood` (irt_engine.py lines 148-169): the probability is
clamped to `[1e-10, 1 - 1e-10]`, and a cell contributes `log p` when its value
equals `1.0` and `log (1 - p)` otherwise. -/
def compute_log_likelihood (data : ℕ → ℕ → ℝ) (nP nI : ℕ)
    (difficulty discrimination guessing : ℕ → ℝ) (theta : ℕ → ℝ) : ℝ :=
  ∑ i ∈ Finset.range nP, ∑ j ∈ Finset.range nI,
    (let p := npClip (compute_probability (theta i) (difficulty j)
        (discrimination j) (guessing j)) 1e-10 (1 - 1e-10)
     if data i j = 1 then Real.log p else Real.log (1 - p))

/-- Oracle for the external `girth` library calls made by `fit_model`:
the estimates returned by `rasch_mml`, `twopl_mml`, `threepl_mml`, the
bootstrap standard errors (which are `none` when `standard_errors_bootstrap`
raises, matching the `try/except` that leaves them absent), and
`ability_eap` as a function of the difficulty/discrimination handed to it. -/
structure GirthDichotomous where
  raschDifficulty : ℕ → ℝ
  raschSEDifficulty : Option (ℕ → ℝ)
  twoplDifficulty : ℕ → ℝ
  twoplDiscrimination : ℕ → ℝ
  twoplSEDifficulty : Option (ℕ → ℝ)
  twoplSEDiscrimination : Option (ℕ → ℝ)
  threeplDifficulty : ℕ → ℝ
  threeplDiscrimination : ℕ → ℝ
  threeplGuessing : Option (ℕ → ℝ)
  abilityEAP : (ℕ → ℝ) → (ℕ → ℝ) → ℕ → ℝ

/-- The spec's error taxonomy for the fatal failure modes of `fit_model`
(the source raises `ValueError(f"Unsupported model type: ...")`, which the
spec names `UnsupportedModelError`). -/
inductive FitError where
  | unsupportedModel
deriving DecidableEq, Repr

/-- `AnalysisResult` from `irt_engine.py` (with `item_parameters`,
`abilities` and `model_fit` flattened into one record). -/
structure AnalysisResult where
  difficulty : ℕ → ℝ
  discrimination : ℕ → ℝ
  guessing : ℕ → ℝ
  se_difficulty : Option (ℕ → ℝ)
  se_discrimination : Option (ℕ → ℝ)
  theta : ℕ → ℝ
  log_likelihood : ℝ
  aic : ℝ
  bic : ℝ
  n_parameters : ℕ
  converged : Bool

/-- Shared tail of `fit_model` (irt_engine.py lines 101-145): EAP abilities,
log-likelihood, the parameter count for the chosen model, AIC/BIC, and a
result with `converged=True`. -/
def fitModelTail (data : ℕ → ℕ → ℝ) (nP nI : ℕ) (g : GirthDichotomous)
    (mt : ModelType) (difficulty discrimination guessing : ℕ → ℝ)
    (seD seA : Option (ℕ → ℝ)) : AnalysisResult :=
  let theta := g.abilityEAP difficulty discrimination
  let ll := compute_log_likelihood data nP nI difficulty discrimination guessing theta
  let nParams : ℕ :=
    if mt = ModelType.TWO_PL then 2 * nI
    else if mt = ModelType.THREE_PL then 3 * nI
    else nI
  { difficulty := difficulty
    discrimination := discrimination
    guessing := guessing
    se_difficulty := seD
    se_discrimination := seA
    theta := theta
    log_likelihood := ll
    aic := 2 * nParams - 2 * ll
    bic := nParams * Real.log nP - 2 * ll
    n_parameters := nParams
    converged := true }

/-- `fit_model(data, model_type, item_names)` (irt_engine.py lines 43-145).
Model types other than 1PL/2PL/3PL hit the final `else` branch, which raises
(`ValueError`, the spec's `UnsupportedModelError`). -/
def fit_model (data : ℕ → ℕ → ℝ) (nP nI : ℕ) (g : GirthDichotomous)
    (mt : ModelType) : Except FitError AnalysisResult :=
  match mt with
  | ModelType.ONE_PL =>
      .ok (fitModelTail data nP nI g mt
        g.raschDifficulty (fun _ => 1) (fun _ => 0) g.raschSEDifficulty none)
  | ModelType.TWO_PL =>
      .ok (fitModelTail data nP nI g mt
        g.twoplDifficulty g.twoplDiscrimination (fun _ => 0)
        g.twoplSEDifficulty g.twoplSEDiscrimination)
  | ModelType.THREE_PL =>
      .ok (fitModelTail data nP nI g mt
        g.threeplDifficulty g.threeplDiscrimination
        (g.threeplGuessing.getD fun _ => 0) none none)
  | _ => .error FitError.unsupportedModel

/-- C5: `fit_model` fails with the unsupported-model error for every model
type outside {1PL, 2PL, 3PL}, and every successful fit reports
`converged=true` (in particular 1PL and 2PL fits do, and `converged=false`
is never reported, which is the only way the code can satisfy "only when the
3PL optimizer signals non-convergence"). -/
theorem C5_fit_model_unsupported_and_converged (data : ℕ → ℕ → ℝ) (nP nI : ℕ)
    (g : GirthDichotomous) :
    (∀ mt : ModelType,
      mt ≠ ModelType.ONE_PL → mt ≠ ModelType.TWO_PL → mt ≠ ModelType.THREE_PL →
      fit_model data nP nI g mt = .error FitError.unsupportedModel) ∧
    (∀ (mt : ModelType) (r : AnalysisResult),
      fit_model data nP nI g mt = .ok r → r.converged = true) := by
  constructor
  · intro mt h1 h2 h3
    cases mt with
    | ONE_PL => exact absurd rfl h1
    | TWO_PL => exact absurd rfl h2
    | THREE_PL => exact absurd rfl h3
    | RSM => rfl
    | PCM => rfl
  · intro mt r hr
    cases mt <;> simp only [fit_model] at hr <;> first
      | (cases hr; rfl)
      | exact absurd hr (by simp)

/-- A trivial girth oracle used in concrete witnesses. -/
def girthZero : GirthDichotomous where
  raschDifficulty := fun _ => 0
  raschSEDifficulty := none
  twoplDifficulty := fun _ => 0
  twoplDiscrimination := fun _ => 1
  twoplSEDifficulty := none
  twoplSEDiscrimination := none
  threeplDifficulty := fun _ => 0
  threeplDiscrimination := fun _ => 1
  threeplGuessing := none
  abilityEAP := fun _ _ _ => 0

theorem C5_fit_model_unsupported_and_converged_witness :
    fit_model (fun _ _ => 0) 1 1 girthZero ModelType.RSM =
      .error FitError.unsupportedModel ∧
    (fit_model (fun _ _ => 0) 1 1 girthZero ModelType.ONE_PL).map
      AnalysisResult.converged = .ok true := by
  have h := C5_fit_model_unsupported_and_converged (fun _ _ => 0) 1 1 girthZero
  refine ⟨h.1 ModelType.RSM (by decide) (by decide) (by decide), ?_⟩
  have hok : fit_model (fun _ _ => 0) 1 1 girthZero ModelType.ONE_PL =
      .ok (fitModelTail (fun _ _ => 0) 1 1 girthZero ModelType.ONE_PL
        girthZero.raschDifficulty (fun _ => 1) (fun _ => 0)
        girthZero.raschSEDifficulty none) := rfl
  rw [hok, Except.map]
  rw [h.2 ModelType.ONE_PL _ hok]

/-!
## Polytomous data pipeline (`fit_polytomous_model`, lines 87-109)

A raw polytomous response matrix has `Option ℤ` cells (`none` = NaN); the
source casts the distinct non-missing values to `int`, sorts them, and remaps
the matrix to dense 0-based category indices (missing cells map to 0 through
`val_to_cat.get(..., 0)` never being consulted: the `if not np.isnan(v)`
branch yields 0 directly for NaN cells).
-/

/-- The index set of the matrix cells. -/
def cells (nP nI : ℕ) : Finset (ℕ × ℕ) := Finset.range nP ×ˢ Finset.range nI

/-- The set of distinct non-missing values in the matrix
(`np.unique(data[~np.isnan(data)])`). -/
def observedVals (data : ℕ → ℕ → Option ℤ) (nP nI : ℕ) : Finset ℤ :=
  (cells nP nI).biUnion fun c => (data c.1 c.2).toFinset

/-- `unique_vals`, sorted ascending. -/
def uniqueVals (data : ℕ → ℕ → Option ℤ) (nP nI : ℕ) : List ℤ :=
  (observedVals data nP nI).sort (· ≤ ·)

/-- `n_categories = len(unique_vals)`. -/
def nCategoriesOf (data : ℕ → ℕ → Option ℤ) (nP nI : ℕ) : ℕ :=
  (uniqueVals data nP nI).length

/-- `val_to_cat = {v: i for i, v in enumerate(unique_vals)}` with the
`.get(..., 0)` default for a value absent from the dictionary. -/
def valToCat (data : ℕ → ℕ → Option ℤ) (nP nI : ℕ) (v : ℤ) : ℕ :=
  if v ∈ uniqueVals data nP nI then (uniqueVals data nP nI).indexOf v else 0

/-- `data_normalized`: NaN cells become category 0, non-missing cells are
remapped through `val_to_cat`. All cells of the result are non-missing. -/
def dataNormalized (data : ℕ → ℕ → Option ℤ) (nP nI : ℕ) : ℕ → ℕ → ℕ :=
  fun i j =>
    match data i j with
    | none => 0
    | some v => valToCat data nP nI v

/-- The normalized matrix as it is handed to the downstream helpers (a float
matrix whose cells would be NaN-checked): every cell is `some`. -/
def dataNormalizedOpt (data : ℕ → ℕ → Option ℤ) (nP nI : ℕ) : ℕ → ℕ → Option ℕ :=
  fun i j => some (dataNormalized data nP nI i j)

/-- `category_counts[k] = np.sum(data_normalized == k)`. -/
def categoryCount (data : ℕ → ℕ → Option ℤ) (nP nI k : ℕ) : ℕ :=
  ((cells nP nI).filter fun c => dataNormalized data nP nI c.1 c.2 = k).card

/-- The `category_counts` vector (length `n_categories`). -/
def categoryCountsOf (data : ℕ → ℕ → Option ℤ) (nP nI : ℕ) : List ℕ :=
  (List.range (nCategoriesOf data nP nI)).map (categoryCount data nP nI)

theorem mem_observedVals (data : ℕ → ℕ → Option ℤ) (nP nI : ℕ) {i j : ℕ} {v : ℤ}
    (hi : i < nP) (hj : j < nI) (hv : data i j = some v) :
    v ∈ observedVals data nP nI := by
  simp only [observedVals, Finset.mem_biUnion]
  exact ⟨(i, j), by simp [cells, hi, hj], by simp [hv]⟩

theorem mem_uniqueVals_iff (data : ℕ → ℕ → Option ℤ) (nP nI : ℕ) (v : ℤ) :
    v ∈ uniqueVals data nP nI ↔ v ∈ observedVals data nP nI :=
  Finset.mem_sort _

/-- Every cell of the normalized matrix is a category index below
`n_categories` (provided at least one value was observed). -/
theorem dataNormalized_lt (data : ℕ → ℕ → Option ℤ) (nP nI : ℕ)
    (hne : 1 ≤ nCategoriesOf data nP nI) (i j : ℕ) :
    dataNormalized data nP nI i j < nCategoriesOf data nP nI := by
  unfold dataNormalized
  cases hv : data i j with
  | none => exact hne
  | some v =>
      show valToCat data nP nI v < _
      unfold valToCat
      by_cases hm : v ∈ uniqueVals data nP nI
      · rw [if_pos hm]
        exact List.indexOf_lt_length.2 hm
      · rw [if_neg hm]
        exact hne

theorem mem_observedVals_iff (data : ℕ → ℕ → Option ℤ) (nP nI : ℕ) (v : ℤ) :
    v ∈ observedVals data nP nI ↔ ∃ c ∈ cells nP nI, data c.1 c.2 = some v := by
  simp only [observedVals, Finset.mem_biUnion, Option.mem_toFinset, Option.mem_def]

theorem sum_map_list_range (f : ℕ → ℕ) (n : ℕ) :
    ((List.range n).map f).sum = ∑ i ∈ Finset.range n, f i := by
  induction n with
  | zero => simp
  | succ n ih =>
      rw [List.range_succ, Finset.sum_range_succ, List.map_append, List.sum_append, ih]
      simp

/-- Helper for C2: the category-count fibers partition all matrix cells. -/
theorem categoryCounts_sum (data : ℕ → ℕ → Option ℤ) (nP nI : ℕ)
    (hne : 1 ≤ nCategoriesOf data nP nI) :
    (categoryCountsOf data nP nI).sum = nP * nI := by
  have hmap : ∀ c ∈ cells nP nI,
      dataNormalized data nP nI c.1 c.2 ∈ Finset.range (nCategoriesOf data nP nI) := by
    intro c _
    rw [Finset.mem_range]
    exact dataNormalized_lt data nP nI hne c.1 c.2
  have hcard := Finset.card_eq_sum_card_fiberwise hmap
  calc (categoryCountsOf data nP nI).sum
      = ∑ k ∈ Finset.range (nCategoriesOf data nP nI), categoryCount data nP nI k := by
        rw [categoryCountsOf, sum_map_list_range]
    _ = (cells nP nI).card := hcard.symm
    _ = nP * nI := by simp [cells]

/-- Remapping is total: `n_categories` equals the number of distinct observed
values, and the category counts account for every cell. -/
theorem category_remap_total (data : ℕ → ℕ → Option ℤ) (nP nI K : ℕ)
    (hK : (observedVals data nP nI).card = K) (hK1 : 1 ≤ K) :
    nCategoriesOf data nP nI = K ∧
    (categoryCountsOf data nP nI).length = K ∧
    (categoryCountsOf data nP nI).sum = nP * nI := by
  have hlen : nCategoriesOf data nP nI = K := by
    rw [nCategoriesOf, uniqueVals, Finset.length_sort, hK]
  exact ⟨hlen, by simp [categoryCountsOf, hlen],
    categoryCounts_sum data nP nI (hlen ▸ hK1)⟩

/-!
## Threshold containers

`thresholds` is a 1-D numpy array for RSM (shared across items) and a 2-D
array for PCM (one row per item). The source dispatches on
`model_type == ModelType.RSM` (and in helpers on `thresholds.ndim == 1`).
-/

inductive Thresh where
  | rsm (tau : List ℝ)
  | pcm (taus : List (List ℝ))

/-- The whole (1-D) threshold vector; for a 2-D array this corresponds to no
source expression (the engine only pairs `.rsm` thresholds with the RSM
model). -/
def Thresh.asShared : Thresh → List ℝ
  | .rsm tau => tau
  | .pcm taus => taus.getD 0 []

/-- `thresholds[j]` for the 2-D case. -/
def Thresh.itemRow (th : Thresh) (j : ℕ) : List ℝ :=
  match th with
  | .rsm tau => tau
  | .pcm taus => taus.getD j []

/-- The source idiom
`item_thresh = thresholds if model_type == ModelType.RSM else thresholds[j]`. -/
def itemThresholds (mt : ModelType) (th : Thresh) (j : ℕ) : List ℝ :=
  if mt = ModelType.RSM then th.asShared else th.itemRow j

/-- `len(thresholds) + 1 if thresholds.ndim == 1 else thresholds.shape[1] + 1`. -/
def Thresh.nCats : Thresh → ℕ
  | .rsm tau => tau.length + 1
  | .pcm taus => (taus.getD 0 []).length + 1

/-!
## NaN-aware matrix reductions

Downstream estimation helpers receive a float matrix with possible NaN cells,
modelled as `ℕ → ℕ → Option ℕ` (the engine only ever feeds them the
remapped 0-based integer categories).
-/

/-- The float value of a cell under `np.nansum`-style accumulation
(missing contributes 0). -/
def cellValR (x : Option ℕ) : ℝ := ((x.getD 0 : ℕ) : ℝ)

/-- `data > k` on one cell: numpy comparison with NaN yields `False`. -/
def cellAbove (x : Option ℕ) (k : ℕ) : Bool :=
  match x with
  | some v => k < v
  | none => false

/-- `np.nansum(data, axis=1)[i]`: the raw score of person `i`. -/
def rowRawScore (data : ℕ → ℕ → Option ℕ) (nI i : ℕ) : ℝ :=
  ∑ j ∈ Finset.range nI, cellValR (data i j)

/-- Number of non-missing cells in column `j`. -/
def colValidCount (data : ℕ → ℕ → Option ℕ) (nP j : ℕ) : ℕ :=
  ((Finset.range nP).filter fun i => (data i j).isSome).card

/-- `np.nanmean(data, axis=0)[j]`: mean of the non-missing cells of column
`j` (numpy yields NaN for an all-missing column; here `0/0 = 0`). -/
def colNanmean (data : ℕ → ℕ → Option ℕ) (nP j : ℕ) : ℝ :=
  (∑ i ∈ Finset.range nP, cellValR (data i j)) / colValidCount data nP j

/-- Number of non-missing cells in column `j` strictly above `k`. -/
def colAboveCount (data : ℕ → ℕ → Option ℕ) (nP j k : ℕ) : ℕ :=
  ((Finset.range nP).filter fun i => cellAbove (data i j) k).card

/-- `np.nanmean(data > k)` over the whole matrix: NaN compares as `False`,
so the denominator is all `nP * nI` cells. -/
def propAboveAll (data : ℕ → ℕ → Option ℕ) (nP nI k : ℕ) : ℝ :=
  (((cells nP nI).filter fun c => cellAbove (data c.1 c.2) k).card : ℝ) /
    ((nP * nI : ℕ) : ℝ)

/-!
## `_estimate_parameters_fallback` (lines 279-349)
-/

/-- `-np.log(p / (1 - p))`: minus the logit, the recurring
proportion-to-difficulty transform. -/
def negLogOdds (p : ℝ) : ℝ := -Real.log (p / (1 - p))

/-- The unused `theta_init` computed at lines 292-300 (dead in the source:
`_estimate_parameters_fallback` returns only difficulty and thresholds). -/
def fallbackThetaInit (data : ℕ → ℕ → Option ℕ) (nP nI K : ℕ) : ℕ → ℝ :=
  let t : ℕ → ℝ := fun i =>
    let p := npClip (rowRawScore data nI i / ((nI : ℝ) * ((K : ℝ) - 1))) 0.01 0.99
    Real.log (p / (1 - p))
  fun i => (t i - meanRange t nP) / (stdRange t nP + 0.01) * 1.5

/-- `prop_correct = np.clip(mean_responses / max_possible, 0.01, 0.99)`. -/
def fallbackPropCorrect (data : ℕ → ℕ → Option ℕ) (nP K j : ℕ) : ℝ :=
  npClip (colNanmean data nP j / ((K : ℝ) - 1)) 0.01 0.99

/-- Item difficulty before centering: `-log(p / (1 - p))`. -/
def fallbackDifficultyRaw (data : ℕ → ℕ → Option ℕ) (nP K j : ℕ) : ℝ :=
  negLogOdds (fallbackPropCorrect data nP K j)

/-- Centered fallback difficulties. -/
def fallbackDifficulty (data : ℕ → ℕ → Option ℕ) (nP nI K : ℕ) (j : ℕ) : ℝ :=
  fallbackDifficultyRaw data nP K j - meanRange (fallbackDifficultyRaw data nP K) nI

/-- RSM shared threshold before centering. -/
def fallbackRSMThresholdRaw (data : ℕ → ℕ → Option ℕ) (nP nI k : ℕ) : ℝ :=
  negLogOdds (npClip (propAboveAll data nP nI k) 0.01 0.99)

/-- RSM shared thresholds, centered (`thresholds - np.mean(thresholds)`). -/
def fallbackThresholdsRSM (data : ℕ → ℕ → Option ℕ) (nP nI K : ℕ) : List ℝ :=
  let raw := (List.range (K - 1)).map (fallbackRSMThresholdRaw data nP nI)
  raw.map (· - listMean raw)

/-- PCM per-item threshold before centering. -/
def fallbackPCMThresholdRaw (data : ℕ → ℕ → Option ℕ) (nP j k : ℕ) : ℝ :=
  negLogOdds (npClip ((colAboveCount data nP j k : ℝ) /
    (colValidCount data nP j : ℝ)) 0.01 0.99)

/-- PCM thresholds for item `j`, centered per item. -/
def fallbackThresholdsPCMRow (data : ℕ → ℕ → Option ℕ) (nP K j : ℕ) : List ℝ :=
  let raw := (List.range (K - 1)).map (fallbackPCMThresholdRaw data nP j)
  raw.map (· - listMean raw)

/-- PCM threshold matrix. -/
def fallbackThresholdsPCM (data : ℕ → ℕ → Option ℕ) (nP nI K : ℕ) : List (List ℝ) :=
  (List.range nI).map (fallbackThresholdsPCMRow data nP K)

/-- `_estimate_parameters_fallback(data, n_categories, model_type)`. -/
def _estimate_parameters_fallback (data : ℕ → ℕ → Option ℕ) (nP nI K : ℕ)
    (mt : ModelType) : (ℕ → ℝ) × Thresh :=
  (fallbackDifficulty data nP nI K,
   if mt = ModelType.RSM then Thresh.rsm (fallbackThresholdsRSM data nP nI K)
   else Thresh.pcm (fallbackThresholdsPCM data nP nI K))

/-!
## `_estimate_jmle` (lines 352-498)
-/

/-- The inputs of one JMLE run (the thresholds are estimated once by the
fallback heuristic and never updated inside the loop). -/
structure JmleCtx where
  data : ℕ → ℕ → Option ℕ
  nP : ℕ
  nI : ℕ
  K : ℕ
  mt : ModelType
  th : Thresh

/-- The state mutated by the JMLE loop. -/
structure JmleState where
  difficulty : ℕ → ℝ
  theta : ℕ → ℝ

/-- `mean_prop = mean_score / max_score`. -/
def jmleMeanProp (data : ℕ → ℕ → Option ℕ) (nP nI K : ℕ) : ℝ :=
  meanRange (rowRawScore data nI) nP / ((nI : ℝ) * ((K : ℝ) - 1))

def JmleCtx.isCeiling (C : JmleCtx) : Prop :=
  0.65 < jmleMeanProp C.data C.nP C.nI C.K

def JmleCtx.isFloor (C : JmleCtx) : Prop :=
  jmleMeanProp C.data C.nP C.nI C.K < 0.35

instance (C : JmleCtx) : Decidable C.isCeiling := by
  unfold JmleCtx.isCeiling
  infer_instance

instance (C : JmleCtx) : Decidable C.isFloor := by
  unfold JmleCtx.isFloor
  infer_instance

/-- `theta_iter_limit = 3 if (is_ceiling or is_floor) else 5`. -/
def JmleCtx.thetaLimit (C : JmleCtx) : ℕ :=
  if C.isCeiling ∨ C.isFloor then 3 else 5

/-- Lower clip bound for the ability range in the active regime. -/
def JmleCtx.clipLo (C : JmleCtx) : ℝ :=
  if C.isCeiling then -3.5 else if C.isFloor then -4.5 else -4

/-- Upper clip bound for the ability range in the active regime. -/
def JmleCtx.clipHi (C : JmleCtx) : ℝ :=
  if C.isCeiling then 4.5 else if C.isFloor then 3.5 else 4

/-- Raw-score logit abilities (`theta = log(p / (1 - p))` with the clipped
score proportion, lines 391-393). -/
def jmleThetaRaw (data : ℕ → ℕ → Option ℕ) (nI K : ℕ) (i : ℕ) : ℝ :=
  Real.log (npClip (rowRawScore data nI i / ((nI : ℝ) * ((K : ℝ) - 1))) 0.01 0.99 /
    (1 - npClip (rowRawScore data nI i / ((nI : ℝ) * ((K : ℝ) - 1))) 0.01 0.99))

/-- The ceiling/floor rescaling of the initial abilities: spread 1.6 applied
when the abilities have spread, then the `+ mean * 0.6` shift. -/
def jmleThetaScaledCF (data : ℕ → ℕ → Option ℕ) (nP nI K : ℕ) (i : ℕ) : ℝ :=
  (if 0.01 < stdRange (jmleThetaRaw data nI K) nP then
    (jmleThetaRaw data nI K i - meanRange (jmleThetaRaw data nI K) nP) /
      stdRange (jmleThetaRaw data nI K) nP * 1.6
   else jmleThetaRaw data nI K i) +
    meanRange (jmleThetaRaw data nI K) nP * 0.6

/-- The ordinary rescaling of the initial abilities (spread 1.5, no shift). -/
def jmleThetaScaled (data : ℕ → ℕ → Option ℕ) (nP nI K : ℕ) (i : ℕ) : ℝ :=
  if 0.01 < stdRange (jmleThetaRaw data nI K) nP then
    (jmleThetaRaw data nI K i - meanRange (jmleThetaRaw data nI K) nP) /
      stdRange (jmleThetaRaw data nI K) nP * 1.5
  else jmleThetaRaw data nI K i

/-- Initial abilities (lines 391-414): raw-score logits, rescaled and
clipped according to the ceiling/floor regime (in the ordinary regime the
rescaled abilities are re-centered before clipping). -/
def jmleThetaInit (data : ℕ → ℕ → Option ℕ) (nP nI K : ℕ) : ℕ → ℝ :=
  if 0.65 < jmleMeanProp data nP nI K then
    fun i => npClip (jmleThetaScaledCF data nP nI K i) (-3.5) 4.5
  else if jmleMeanProp data nP nI K < 0.35 then
    fun i => npClip (jmleThetaScaledCF data nP nI K i) (-4.5) 3.5
  else
    fun i => npClip (jmleThetaScaled data nP nI K i -
      meanRange (jmleThetaScaled data nP nI K) nP) (-4) 4

/-- Category probability inside the JMLE loop for person `i`, item `j`. -/
def jmleProb (C : JmleCtx) (s : JmleState) (i j k : ℕ) : ℝ :=
  compute_category_probability (s.theta i) (s.difficulty j)
    (itemThresholds C.mt C.th j) k

/-- `probs = probs / (np.sum(probs) + 1e-10)`. -/
def jmleProbN (C : JmleCtx) (s : JmleState) (i j k : ℕ) : ℝ :=
  jmleProb C s i j k / ((∑ m ∈ Finset.range C.K, jmleProb C s i j m) + 1e-10)

/-- `exp_val = np.sum(k_values * probs)`. -/
def jmleExpVal (C : JmleCtx) (s : JmleState) (i j : ℕ) : ℝ :=
  ∑ k ∈ Finset.range C.K, (k : ℝ) * jmleProbN C s i j k

/-- `exp_sq = np.sum((k_values ** 2) * probs)`. -/
def jmleExpSq (C : JmleCtx) (s : JmleState) (i j : ℕ) : ℝ :=
  ∑ k ∈ Finset.range C.K, (k : ℝ) ^ 2 * jmleProbN C s i j k

/-- `variance = max(exp_sq - exp_val ** 2, 0.1)`. -/
def jmleVariance (C : JmleCtx) (s : JmleState) (i j : ℕ) : ℝ :=
  max (jmleExpSq C s i j - jmleExpVal C s i j ^ 2) 0.1

/-- Persons with a non-missing response on item `j`. -/
def validPersons (C : JmleCtx) (j : ℕ) : Finset ℕ :=
  (Finset.range C.nP).filter fun i => (C.data i j).isSome

/-- Items with a non-missing response from person `i`. -/
def validItems (C : JmleCtx) (i : ℕ) : Finset ℕ :=
  (Finset.range C.nI).filter fun j => (C.data i j).isSome

def itemObs (C : JmleCtx) (j : ℕ) : ℝ :=
  ∑ i ∈ validPersons C j, cellValR (C.data i j)

def itemExp (C : JmleCtx) (s : JmleState) (j : ℕ) : ℝ :=
  ∑ i ∈ validPersons C j, jmleExpVal C s i j

def itemInfo (C : JmleCtx) (s : JmleState) (j : ℕ) : ℝ :=
  ∑ i ∈ validPersons C j, jmleVariance C s i j

/-- One item's difficulty update (lines 446-449): the damped clamped step is
applied only when `info_sum > 0.1`. -/
def jmleDifficultyStep (C : JmleCtx) (s : JmleState) (j : ℕ) : ℝ :=
  if 0.1 < itemInfo C s j then
    s.difficulty j -
      npClip (0.2 * (itemObs C j - itemExp C s j) / itemInfo C s j) (-0.3) 0.3
  else s.difficulty j

/-- Updated difficulties, re-centered to mean 0 (line 451). -/
def jmleDifficultyNext (C : JmleCtx) (s : JmleState) (j : ℕ) : ℝ :=
  jmleDifficultyStep C s j - meanRange (jmleDifficultyStep C s) C.nI

def personObs (C : JmleCtx) (i : ℕ) : ℝ :=
  ∑ j ∈ validItems C i, cellValR (C.data i j)

def personExp (C : JmleCtx) (s : JmleState) (i : ℕ) : ℝ :=
  ∑ j ∈ validItems C i, jmleExpVal C s i j

def personInfo (C : JmleCtx) (s : JmleState) (i : ℕ) : ℝ :=
  ∑ j ∈ validItems C i, jmleVariance C s i j

/-- One person's ability update (lines 455-483), evaluated against the
already-updated difficulties: persons whose row is entirely missing are
skipped, and the damped half-step applies only when `info_sum > 0.1`. -/
def jmleThetaStep (C : JmleCtx) (s : JmleState) (i : ℕ) : ℝ :=
  if ∀ j ∈ Finset.range C.nI, C.data i j = none then s.theta i
  else if 0.1 < personInfo C s i then
    s.theta i +
      npClip (0.2 * 0.5 * (personObs C i - personExp C s i) / personInfo C s i)
        (-0.2) 0.2
  else s.theta i

/-- One full JMLE iteration (the body of the `for iteration in range(max_iter)`
loop): difficulties are updated and re-centered; abilities are updated and
re-clipped only while `iteration < theta_iter_limit`. -/
def jmleIter (C : JmleCtx) (it : ℕ) (s : JmleState) : JmleState :=
  let d' := jmleDifficultyNext C s
  let s' : JmleState := ⟨d', s.theta⟩
  if it < C.thetaLimit then
    ⟨d', fun i => npClip (jmleThetaStep C s' i) C.clipLo C.clipHi⟩
  else s'

/-- `np.max(np.abs(f - g))` over indices `< n` (0 on an empty range; the
values are absolute so the fold with initial 0 agrees with numpy on any
non-empty range). -/
def maxAbsChange (f g : ℕ → ℝ) (n : ℕ) : ℝ :=
  ((List.range n).map fun j => |f j - g j|).foldl max 0

/-- The JMLE loop with explicit fuel, running iteration index, and threshold:
returns the final state, the `converged` flag, and the number of iterations
actually executed. -/
def jmleLoop (C : JmleCtx) (thr : ℝ) : ℕ → ℕ → JmleState → JmleState × Bool × ℕ
  | 0, _, s => (s, false, 0)
  | (fuel + 1), it, s =>
      let s' := jmleIter C it s
      if maxAbsChange s'.difficulty s.difficulty C.nI < thr then (s', true, 1)
      else
        let r := jmleLoop C thr fuel (it + 1) s'
        (r.1, r.2.1, r.2.2 + 1)

/-- The JMLE context built by `_estimate_jmle` (fallback thresholds). -/
def mkJmleCtx (data : ℕ → ℕ → Option ℕ) (nP nI K : ℕ) (mt : ModelType) : JmleCtx :=
  { data := data, nP := nP, nI := nI, K := K, mt := mt,
    th := (_estimate_parameters_fallback data nP nI K mt).2 }

/-- The state entering the first JMLE iteration. -/
def jmleInitState (data : ℕ → ℕ → Option ℕ) (nP nI K : ℕ) (mt : ModelType) :
    JmleState :=
  ⟨(_estimate_parameters_fallback data nP nI K mt).1, jmleThetaInit data nP nI K⟩

/-- `_estimate_jmle(data, n_categories, model_type, max_iter=50,
convergence_threshold=0.005)`: returns
`(difficulty, thresholds, theta, converged)`. -/
def _estimate_jmle (data : ℕ → ℕ → Option ℕ) (nP nI K : ℕ) (mt : ModelType)
    (maxIter : ℕ := 50) (thr : ℝ := 0.005) : (ℕ → ℝ) × Thresh × (ℕ → ℝ) × Bool :=
  let C := mkJmleCtx data nP nI K mt
  let r := jmleLoop C thr maxIter 0 (jmleInitState data nP nI K mt)
  (r.1.difficulty, C.th, r.1.theta, r.2.1)

/-- The state after `m` no-early-exit iterations starting from state `s` at
iteration index `it`. -/
def jmleTraceFrom (C : JmleCtx) (it : ℕ) (s : JmleState) : ℕ → JmleState
  | 0 => s
  | m + 1 => jmleIter C (it + m) (jmleTraceFrom C it s m)

/-!
## `_estimate_abilities_polytomous` (lines 501-537) and
`_compute_all_log_probs_vectorized` (lines 540-581)
-/

/-- `np.linspace(-4, 4, 21)[q]`. -/
def quadPoint (q : ℕ) : ℝ := -4 + 8 * (q : ℝ) / 20

/-- Gaussian density weight at a quadrature point (before normalization). -/
def quadWeightRaw (q : ℕ) : ℝ :=
  Real.exp (-(quadPoint q) ^ 2 / 2) / Real.sqrt (2 * Real.pi)

/-- Quadrature weights normalized to sum to 1. -/
def quadWeight (q : ℕ) : ℝ :=
  quadWeightRaw q / ∑ m ∈ Finset.range 21, quadWeightRaw m

/-- `cumsum_base[k]`: `-Σ_{m<k} thresholds[m]` for RSM and 0 otherwise. -/
def eapCumsumBase (mt : ModelType) (th : Thresh) (k : ℕ) : ℝ :=
  if mt = ModelType.RSM then -(∑ m ∈ Finset.range k, th.asShared.getD m 0) else 0

/-- `item_cumsum[k]` for quadrature ability `tq` and item `j`. -/
def eapItemCumsum (mt : ModelType) (th : Thresh) (difficulty : ℕ → ℝ)
    (tq : ℝ) (j k : ℕ) : ℝ :=
  if mt = ModelType.RSM then
    eapCumsumBase mt th k + (k : ℝ) * (tq - difficulty j)
  else
    ∑ m ∈ Finset.range k, (tq - difficulty j - (th.itemRow j).getD m 0)

/-- `np.max` of `f 0, …, f (n-1)` (well-defined for `n ≥ 1`, which is how the
source uses it; numpy raises on an empty array). -/
def rangeMax (f : ℕ → ℝ) (n : ℕ) : ℝ :=
  ((List.range n).map f).foldl max (f 0)

/-- Softmax category probability inside the EAP grid
(`exp_vals / np.sum(exp_vals)` after subtracting the row max). -/
def eapProb (mt : ModelType) (th : Thresh) (difficulty : ℕ → ℝ)
    (tq : ℝ) (j k : ℕ) : ℝ :=
  Real.exp (eapItemCumsum mt th difficulty tq j k -
      rangeMax (eapItemCumsum mt th difficulty tq j) th.nCats) /
    ∑ m ∈ Finset.range th.nCats,
      Real.exp (eapItemCumsum mt th difficulty tq j m -
        rangeMax (eapItemCumsum mt th difficulty tq j) th.nCats)

/-- `log_probs[q, j, k] = np.log(np.clip(probs, 1e-10, 1.0))`. -/
def eapLogProb (mt : ModelType) (th : Thresh) (difficulty : ℕ → ℝ)
    (tq : ℝ) (j k : ℕ) : ℝ :=
  Real.log (npClip (eapProb mt th difficulty tq j k) 1e-10 1)

/-- `log_likelihoods[i, q]`: missing cells contribute 0
(`np.where(valid_mask, item_log_probs, 0.0)`); `data_int` maps a missing cell
to category 0 before the lookup, but the looked-up value is then discarded. -/
def eapLogLik (data : ℕ → ℕ → Option ℕ) (nI : ℕ) (mt : ModelType) (th : Thresh)
    (difficulty : ℕ → ℝ) (i q : ℕ) : ℝ :=
  ∑ j ∈ Finset.range nI,
    if (data i j).isSome then
      eapLogProb mt th difficulty (quadPoint q) j ((data i j).getD 0)
    else 0

/-- `max_ll[i] = np.max(log_likelihoods[i, :])`. -/
def eapMaxLL (data : ℕ → ℕ → Option ℕ) (nI : ℕ) (mt : ModelType) (th : Thresh)
    (difficulty : ℕ → ℝ) (i : ℕ) : ℝ :=
  rangeMax (eapLogLik data nI mt th difficulty i) 21

/-- `likelihoods * quad_weights` (the unnormalized posterior). -/
def eapPosteriorRaw (data : ℕ → ℕ → Option ℕ) (nI : ℕ) (mt : ModelType)
    (th : Thresh) (difficulty : ℕ → ℝ) (i q : ℕ) : ℝ :=
  Real.exp (eapLogLik data nI mt th difficulty i q -
    eapMaxLL data nI mt th difficulty i) * quadWeight q

/-- Normalized posterior over the 21 quadrature points. -/
def eapPosterior (data : ℕ → ℕ → Option ℕ) (nI : ℕ) (mt : ModelType)
    (th : Thresh) (difficulty : ℕ → ℝ) (i q : ℕ) : ℝ :=
  eapPosteriorRaw data nI mt th difficulty i q /
    ∑ m ∈ Finset.range 21, eapPosteriorRaw data nI mt th difficulty i m

/-- `_estimate_abilities_polytomous(data, difficulty, thresholds, model_type)`:
EAP ability per person, `theta[i] = Σ_q quad_points[q] * posteriors[i, q]`. -/
def _estimate_abilities_polytomous (data : ℕ → ℕ → Option ℕ) (nP nI : ℕ)
    (difficulty : ℕ → ℝ) (th : Thresh) (mt : ModelType) : ℕ → ℝ :=
  fun i => ∑ q ∈ Finset.range 21,
    quadPoint q * eapPosterior data nI mt th difficulty i q

/-!
## `compute_fit_statistics` (lines 627-693) and
`compute_polytomous_log_likelihood` (lines 696-716)
-/

/-- `np.cbrt`: the real (sign-preserving) cube root. -/
def realCbrt (x : ℝ) : ℝ :=
  if 0 ≤ x then x ^ ((1 : ℝ) / 3) else -((-x) ^ ((1 : ℝ) / 3))

/-- Persons with a non-missing response on item `j` (row mask of
`~np.isnan(data[:, j])`). -/
def validIdx (data : ℕ → ℕ → Option ℕ) (nP j : ℕ) : Finset ℕ :=
  (Finset.range nP).filter fun i => (data i j).isSome

/-- Expected score `E[X]` of person `i` on item `j` under the fitted model. -/
def fsExpected (data : ℕ → ℕ → Option ℕ) (difficulty : ℕ → ℝ) (th : Thresh)
    (theta : ℕ → ℝ) (mt : ModelType) (i j : ℕ) : ℝ :=
  ∑ k ∈ Finset.range th.nCats,
    (k : ℝ) * compute_category_probability (theta i) (difficulty j)
      (itemThresholds mt th j) k

/-- `E[X^2]` of person `i` on item `j`. -/
def fsExpectedSq (data : ℕ → ℕ → Option ℕ) (difficulty : ℕ → ℝ) (th : Thresh)
    (theta : ℕ → ℝ) (mt : ModelType) (i j : ℕ) : ℝ :=
  ∑ k ∈ Finset.range th.nCats,
    (k : ℝ) ^ 2 * compute_category_probability (theta i) (difficulty j)
      (itemThresholds mt th j) k

/-- `variances = np.maximum(expected_sq - expected ** 2, 0.01)`. -/
def fsVariance (data : ℕ → ℕ → Option ℕ) (difficulty : ℕ → ℝ) (th : Thresh)
    (theta : ℕ → ℝ) (mt : ModelType) (i j : ℕ) : ℝ :=
  max (fsExpectedSq data difficulty th theta mt i j -
    fsExpected data difficulty th theta mt i j ^ 2) 0.01

/-- `z_squared = (residuals ** 2) / variances`. -/
def fsZsq (data : ℕ → ℕ → Option ℕ) (difficulty : ℕ → ℝ) (th : Thresh)
    (theta : ℕ → ℝ) (mt : ModelType) (i j : ℕ) : ℝ :=
  (cellValR (data i j) - fsExpected data difficulty th theta mt i j) ^ 2 /
    fsVariance data difficulty th theta mt i j

/-- Wilson-Hilferty `q = sqrt(2 / n_valid)` (1.0 when `n_valid = 0`). -/
def fsQ (data : ℕ → ℕ → Option ℕ) (nP j : ℕ) : ℝ :=
  if 0 < (validIdx data nP j).card then
    Real.sqrt (2 / ((validIdx data nP j).card : ℝ))
  else 1

/-- The four arrays returned by `compute_fit_statistics`. -/
structure FitStats where
  infit_mnsq : ℕ → ℝ
  outfit_mnsq : ℕ → ℝ
  infit_zstd : ℕ → ℝ
  outfit_zstd : ℕ → ℝ

/-- `compute_fit_statistics(data, difficulty, thresholds, theta, model_type)`:
items with no valid responses keep the defaults (MNSQ 1, zstd 0). -/
def compute_fit_statistics (data : ℕ → ℕ → Option ℕ) (nP : ℕ)
    (difficulty : ℕ → ℝ) (th : Thresh) (theta : ℕ → ℝ) (mt : ModelType) :
    FitStats :=
  let outfit : ℕ → ℝ := fun j =>
    if (validIdx data nP j).card = 0 then 1
    else (∑ i ∈ validIdx data nP j, fsZsq data difficulty th theta mt i j) /
      ((validIdx data nP j).card : ℝ)
  let infit : ℕ → ℝ := fun j =>
    if (validIdx data nP j).card = 0 then 1
    else (∑ i ∈ validIdx data nP j,
        fsZsq data difficulty th theta mt i j * fsVariance data difficulty th theta mt i j) /
      ∑ i ∈ validIdx data nP j, fsVariance data difficulty th theta mt i j
  { infit_mnsq := infit
    outfit_mnsq := outfit
    infit_zstd := fun j =>
      if (validIdx data nP j).card = 0 then 0
      else (realCbrt (infit j) - 1) * (3 / fsQ data nP j) + fsQ data nP j / 3
    outfit_zstd := fun j =>
      if (validIdx data nP j).card = 0 then 0
      else (realCbrt (outfit j) - 1) * (3 / fsQ data nP j) + fsQ data nP j / 3 }

/-- `compute_polytomous_log_likelihood(data, difficulty, thresholds, theta,
model_type)`: missing cells are skipped, probabilities floored at 1e-10. -/
def compute_polytomous_log_likelihood (data : ℕ → ℕ → Option ℕ) (nP nI : ℕ)
    (difficulty : ℕ → ℝ) (th : Thresh) (theta : ℕ → ℝ) (mt : ModelType) : ℝ :=
  ∑ i ∈ Finset.range nP, ∑ j ∈ Finset.range nI,
    match data i j with
    | none => 0
    | some k =>
        Real.log (max (compute_category_probability (theta i) (difficulty j)
          (itemThresholds mt th j) k) 1e-10)

/-!
## The MML branch of `fit_polytomous_model` (lines 125-181)
-/

/-- Output of a successful `girth.pcm_mml` call: `estimates["Difficulty"]`
(an `n_items × n_steps` matrix of step difficulties) and
`estimates["Ability"]`. `none` at the call site models the `except` branch:
the optimizer raising or the 60-second `SIGALRM` timeout firing. -/
structure GirthPCM where
  stepDifficulties : List (List ℝ)
  ability : ℕ → ℝ

/-- `np.mean(step_difficulties, axis=1)[j]`. -/
def mmlRowMean (g : GirthPCM) (j : ℕ) : ℝ := listMean (g.stepDifficulties.getD j [])

/-- `difficulty = row means - their mean` (centered). -/
def mmlDifficulty (g : GirthPCM) (nI : ℕ) (j : ℕ) : ℝ :=
  mmlRowMean g j - meanRange (mmlRowMean g) nI

/-- RSM thresholds from MML: column means of the row-centered step
difficulties. -/
def mmlThresholdsRSM (g : GirthPCM) (nI : ℕ) : List ℝ :=
  (List.range (g.stepDifficulties.getD 0 []).length).map fun k =>
    meanRange (fun j => (g.stepDifficulties.getD j []).getD k 0 - mmlRowMean g j) nI

/-- PCM thresholds from MML: `step_difficulties - difficulty[:, np.newaxis]`. -/
def mmlThresholdsPCM (g : GirthPCM) (nI : ℕ) : List (List ℝ) :=
  (List.range nI).map fun j =>
    (g.stepDifficulties.getD j []).map fun x => x - mmlDifficulty g nI j

/-- `target_theta`: raw-score logits with the 0.02/0.98 clip. -/
def mmlTargetTheta (nd : ℕ → ℕ → Option ℕ) (nI K : ℕ) (i : ℕ) : ℝ :=
  let p := npClip (rowRawScore nd nI i / ((nI : ℝ) * ((K : ℝ) - 1))) 0.02 0.98
  Real.log (p / (1 - p))

/-- Ability from the MML branch: girth's abilities rescaled to the raw-score
logit distribution when they have spread, the raw-score logits otherwise. -/
def mmlTheta (g : GirthPCM) (nd : ℕ → ℕ → Option ℕ) (nP nI K : ℕ) : ℕ → ℝ :=
  if 0.01 < stdRange g.ability nP then
    fun i => (g.ability i - meanRange g.ability nP) / stdRange g.ability nP *
      stdRange (mmlTargetTheta nd nI K) nP + meanRange (mmlTargetTheta nd nI K) nP
  else mmlTargetTheta nd nI K

/-!
## `fit_polytomous_model` (lines 63-248)
-/

/-- `PolytomousAnalysisResult` (item parameters, abilities and model-fit dict
flattened into one record; the optional SE fields are always `None` in the
source and are omitted). -/
structure PolytomousAnalysisResult where
  model_type : ModelType
  difficulty : ℕ → ℝ
  thresholds : Thresh
  infit_mnsq : ℕ → ℝ
  outfit_mnsq : ℕ → ℝ
  infit_zstd : ℕ → ℝ
  outfit_zstd : ℕ → ℝ
  theta : ℕ → ℝ
  log_likelihood : ℝ
  aic : ℝ
  bic : ℝ
  n_parameters : ℕ
  converged : Bool
  n_categories : ℕ
  category_counts : List ℕ

/-- Everything `fit_polytomous_model` does after remapping (lines 111-248):
the input enters only through the normalized matrix `nd`, the category count
`K` and the precomputed `category_counts`. -/
def fitPolytomousCore (nd : ℕ → ℕ → Option ℕ) (nP nI K : ℕ) (mt : ModelType)
    (use_mml : Bool) (mode : EstimationMode) (girth : Option GirthPCM)
    (counts : List ℕ) : PolytomousAnalysisResult :=
  let effectiveMode :=
    if use_mml = true ∧ mode = EstimationMode.AUTO then EstimationMode.MML else mode
  let est : (ℕ → ℝ) × Thresh × Option (ℕ → ℝ) × Bool :=
    if effectiveMode = EstimationMode.JMLE then
      let r := _estimate_jmle nd nP nI K mt
      (r.1, r.2.1, some r.2.2.1, r.2.2.2)
    else if effectiveMode = EstimationMode.MML then
      match girth with
      | some g =>
          (mmlDifficulty g nI,
           if mt = ModelType.RSM then Thresh.rsm (mmlThresholdsRSM g nI)
           else Thresh.pcm (mmlThresholdsPCM g nI),
           some (mmlTheta g nd nP nI K), true)
      | none =>
          let f := _estimate_parameters_fallback nd nP nI K mt
          (f.1, f.2, none, false)
    else
      let f := _estimate_parameters_fallback nd nP nI K mt
      (f.1, f.2, none, true)
  let difficulty := est.1
  let th := est.2.1
  let theta : ℕ → ℝ :=
    match est.2.2.1 with
    | some t => t
    | none => _estimate_abilities_polytomous nd nP nI difficulty th mt
  let fs := compute_fit_statistics nd nP difficulty th theta mt
  let ll := compute_polytomous_log_likelihood nd nP nI difficulty th theta mt
  let nParams := if mt = ModelType.RSM then nI + (K - 1) else nI * K
  { model_type := mt
    difficulty := difficulty
    thresholds := th
    infit_mnsq := fs.infit_mnsq
    outfit_mnsq := fs.outfit_mnsq
    infit_zstd := fs.infit_zstd
    outfit_zstd := fs.outfit_zstd
    theta := theta
    log_likelihood := ll
    aic := 2 * nParams - 2 * ll
    bic := nParams * Real.log nP - 2 * ll
    n_parameters := nParams
    converged := est.2.2.2
    n_categories := K
    category_counts := counts }

/-- `fit_polytomous_model(data, model_type, item_names, use_mml,
estimation_mode)`; the girth oracle stands for the external `pcm_mml` call
in MML mode. -/
def fit_polytomous_model (data : ℕ → ℕ → Option ℤ) (nP nI : ℕ) (mt : ModelType)
    (use_mml : Bool) (mode : EstimationMode) (girth : Option GirthPCM) :
    PolytomousAnalysisResult :=
  fitPolytomousCore (dataNormalizedOpt data nP nI) nP nI (nCategoriesOf data nP nI)
    mt use_mml mode girth (categoryCountsOf data nP nI)

/-!
## Claims C2, C3, C6, C7 about `fit_polytomous_model`
-/

/-- C2: for every response matrix with at least one non-missing cell whose
non-missing values take exactly K distinct ordinal values,
`fit_polytomous_model` (either model, any mode, any oracle outcome) returns
`n_categories = K`, and the returned `category_counts` vector has length K
and sums to `n_persons * n_items`. -/
theorem C2_fit_reports_K_categories (data : ℕ → ℕ → Option ℤ) (nP nI K : ℕ)
    (mt : ModelType) (um : Bool) (mode : EstimationMode) (orc : Option GirthPCM)
    (hK : (observedVals data nP nI).card = K) (hK1 : 1 ≤ K) :
    (fit_polytomous_model data nP nI mt um mode orc).n_categories = K ∧
    (fit_polytomous_model data nP nI mt um mode orc).category_counts.length = K ∧
    (fit_polytomous_model data nP nI mt um mode orc).category_counts.sum = nP * nI := by
  have h := category_remap_total data nP nI K hK hK1
  exact ⟨h.1, h.2.1, h.2.2⟩

/-- A concrete 1×2 matrix with one 0 cell and one 1 cell, used in witnesses. -/
def sampleData : ℕ → ℕ → Option ℤ := fun i j =>
  if i = 0 ∧ j = 0 then some 0 else if i = 0 ∧ j = 1 then some 1 else none

theorem C2_fit_reports_K_categories_witness :
    (fit_polytomous_model sampleData 1 2 ModelType.RSM false
        EstimationMode.AUTO none).n_categories = 2 ∧
    (fit_polytomous_model sampleData 1 2 ModelType.RSM false
        EstimationMode.AUTO none).category_counts.length = 2 ∧
    (fit_polytomous_model sampleData 1 2 ModelType.RSM false
        EstimationMode.AUTO none).category_counts.sum = 1 * 2 :=
  C2_fit_reports_K_categories sampleData 1 2 2 ModelType.RSM false
    EstimationMode.AUTO none (by decide) (by decide)

/-- The matrix with every missing cell replaced by the smallest observed
value (the value remapped to category 0). -/
def replaceMissingWithMin (data : ℕ → ℕ → Option ℤ) (nP nI : ℕ) :
    ℕ → ℕ → Option ℤ :=
  fun i j => some ((data i j).getD ((uniqueVals data nP nI).headD 0))

theorem headD_mem_uniqueVals (data : ℕ → ℕ → Option ℤ) (nP nI : ℕ)
    (hne : 1 ≤ nCategoriesOf data nP nI) :
    (uniqueVals data nP nI).headD 0 ∈ uniqueVals data nP nI := by
  cases hu : uniqueVals data nP nI with
  | nil =>
      rw [nCategoriesOf, hu] at hne
      simp at hne
  | cons a t => simp [hu]

theorem observedVals_replaceMissing (data : ℕ → ℕ → Option ℤ) (nP nI : ℕ)
    (hne : 1 ≤ nCategoriesOf data nP nI) :
    observedVals (replaceMissingWithMin data nP nI) nP nI = observedVals data nP nI := by
  have hmem : (uniqueVals data nP nI).headD 0 ∈ observedVals data nP nI :=
    (mem_uniqueVals_iff data nP nI _).1 (headD_mem_uniqueVals data nP nI hne)
  ext v
  rw [mem_observedVals_iff, mem_observedVals_iff]
  constructor
  · rintro ⟨c, hc, hv⟩
    rw [replaceMissingWithMin] at hv
    cases hd : data c.1 c.2 with
    | none =>
        rw [hd] at hv
        simp only [Option.getD_none, Option.some.injEq] at hv
        exact hv ▸ (mem_observedVals_iff data nP nI _).1 hmem
    | some w =>
        rw [hd] at hv
        simp only [Option.getD_some, Option.some.injEq] at hv
        exact ⟨c, hc, hv ▸ hd⟩
  · rintro ⟨c, hc, hv⟩
    exact ⟨c, hc, by rw [replaceMissingWithMin, hv]; rfl⟩

theorem uniqueVals_replaceMissing (data : ℕ → ℕ → Option ℤ) (nP nI : ℕ)
    (hne : 1 ≤ nCategoriesOf data nP nI) :
    uniqueVals (replaceMissingWithMin data nP nI) nP nI = uniqueVals data nP nI := by
  rw [uniqueVals, uniqueVals, observedVals_replaceMissing data nP nI hne]

theorem dataNormalized_replaceMissing (data : ℕ → ℕ → Option ℤ) (nP nI : ℕ)
    (hne : 1 ≤ nCategoriesOf data nP nI) :
    dataNormalized (replaceMissingWithMin data nP nI) nP nI = dataNormalized data nP nI := by
  have huv := uniqueVals_replaceMissing data nP nI hne
  have hcat : valToCat (replaceMissingWithMin data nP nI) nP nI =
      valToCat data nP nI := by
    funext v
    rw [valToCat, valToCat, huv]
  funext i j
  rw [dataNormalized, dataNormalized, replaceMissingWithMin]
  cases hd : data i j with
  | none =>
      simp only [Option.getD_none]
      rw [hcat, valToCat, if_pos (headD_mem_uniqueVals data nP nI hne)]
      cases hu : uniqueVals data nP nI with
      | nil =>
          rw [nCategoriesOf, hu] at hne
          simp at hne
      | cons a t => simp [hu]
  | some v =>
      simp only [Option.getD_some]
      rw [hcat]

theorem valToCat_eq_zero_iff (data : ℕ → ℕ → Option ℤ) (nP nI : ℕ) {v : ℤ}
    (hv : v ∈ uniqueVals data nP nI) :
    valToCat data nP nI v = 0 ↔ v = (uniqueVals data nP nI).headD 0 := by
  rw [valToCat, if_pos hv]
  cases hu : uniqueVals data nP nI with
  | nil =>
      rw [hu] at hv
      simp at hv
  | cons a t =>
      rw [hu] at hv
      simp only [List.headD_cons]
      constructor
      · intro h0
        by_contra hva
        rw [List.indexOf_cons_ne t fun h => hva h.symm] at h0
        exact Nat.succ_ne_zero _ h0
      · intro h
        rw [h]
        exact List.indexOf_cons_self a t

/-- `category_counts[0]` counts the missing cells together with the cells
holding the smallest observed value. -/
theorem categoryCount_zero_split (data : ℕ → ℕ → Option ℤ) (nP nI : ℕ) :
    categoryCount data nP nI 0 =
      ((cells nP nI).filter fun c => data c.1 c.2 = none).card +
        ((cells nP nI).filter fun c =>
          data c.1 c.2 = some ((uniqueVals data nP nI).headD 0)).card := by
  rw [categoryCount,
    Finset.filter_congr (q := fun c => data c.1 c.2 = none ∨
      data c.1 c.2 = some ((uniqueVals data nP nI).headD 0)) ?_]
  · rw [Finset.filter_or, Finset.card_union_of_disjoint ?_]
    rw [Finset.disjoint_filter]
    rintro c _ h1 h2
    rw [h1] at h2
    cases h2
  · rintro ⟨i, j⟩ hc
    rw [cells, Finset.mem_product, Finset.mem_range, Finset.mem_range] at hc
    rw [dataNormalized]
    cases hd : data i j with
    | none => simp [hd]
    | some v =>
        have hvmem : v ∈ uniqueVals data nP nI :=
          (mem_uniqueVals_iff data nP nI v).2 <| (mem_observedVals_iff data nP nI v).2
            ⟨(i, j), by simp [cells, hc.1, hc.2], hd⟩
        rw [valToCat_eq_zero_iff data nP nI hvmem]
        simp [hd]

/-- C3: missing cells are remapped to category 0, so (i) the NaN guard in the
downstream log-likelihood never fires on the normalized matrix — the sum runs
over every cell; (ii) `category_counts[0]` counts each missing cell together
with the cells holding the lowest observed value; and (iii) the whole fit
result (every estimation mode) is unchanged when each missing cell is
replaced by the lowest observed value. -/
theorem C3_missing_treated_as_lowest_category (data : ℕ → ℕ → Option ℤ)
    (nP nI : ℕ) (hne : 1 ≤ nCategoriesOf data nP nI) :
    (∀ (d : ℕ → ℝ) (th : Thresh) (theta : ℕ → ℝ) (mt : ModelType),
      compute_polytomous_log_likelihood (dataNormalizedOpt data nP nI) nP nI
          d th theta mt =
        ∑ i ∈ Finset.range nP, ∑ j ∈ Finset.range nI,
          Real.log (max (compute_category_probability (theta i) (d j)
            (itemThresholds mt th j) (dataNormalized data nP nI i j)) 1e-10)) ∧
    categoryCount data nP nI 0 =
      ((cells nP nI).filter fun c => data c.1 c.2 = none).card +
        ((cells nP nI).filter fun c =>
          data c.1 c.2 = some ((uniqueVals data nP nI).headD 0)).card ∧
    (∀ (mt : ModelType) (um : Bool) (mode : EstimationMode) (orc : Option GirthPCM),
      fit_polytomous_model data nP nI mt um mode orc =
        fit_polytomous_model (replaceMissingWithMin data nP nI) nP nI mt um mode orc) := by
  refine ⟨?_, ?_, ?_⟩
  · intro d th theta mt
    rfl
  · exact categoryCount_zero_split data nP nI
  · intro mt um mode orc
    rw [fit_polytomous_model, fit_polytomous_model, nCategoriesOf, nCategoriesOf,
      uniqueVals_replaceMissing data nP nI hne]
    have hnorm : dataNormalizedOpt (replaceMissingWithMin data nP nI) nP nI =
        dataNormalizedOpt data nP nI := by
      funext i j
      rw [dataNormalizedOpt, dataNormalizedOpt,
        dataNormalized_replaceMissing data nP nI hne]
    have hcounts : categoryCountsOf (replaceMissingWithMin data nP nI) nP nI =
        categoryCountsOf data nP nI := by
      rw [categoryCountsOf, categoryCountsOf, nCategoriesOf, nCategoriesOf,
        uniqueVals_replaceMissing data nP nI hne]
      refine List.map_congr_left fun k _ => ?_
      rw [categoryCount, categoryCount, dataNormalized_replaceMissing data nP nI hne]
    rw [hnorm, hcounts]

theorem C3_missing_treated_as_lowest_category_witness :
    categoryCount sampleData 1 2 0 =
      ((cells 1 2).filter fun c => sampleData c.1 c.2 = none).card +
        ((cells 1 2).filter fun c =>
          sampleData c.1 c.2 = some ((uniqueVals sampleData 1 2).headD 0)).card ∧
    fit_polytomous_model sampleData 1 2 ModelType.PCM false EstimationMode.JMLE none =
      fit_polytomous_model (replaceMissingWithMin sampleData 1 2) 1 2 ModelType.PCM
        false EstimationMode.JMLE none := by
  have hne : 1 ≤ nCategoriesOf sampleData 1 2 := by
    rw [nCategoriesOf, uniqueVals, Finset.length_sort]
    decide
  have h := C3_missing_treated_as_lowest_category sampleData 1 2 hne
  exact ⟨h.2.1, h.2.2 ModelType.PCM false EstimationMode.JMLE none⟩

/-- C6: the reported parameter count is `n_items`, `2 n_items`, `3 n_items`
for 1PL/2PL/3PL, `n_items + (K-1)` for RSM and `n_items * K` for PCM, and in
both engines the reported AIC is `2k - 2 LL` and BIC is
`k ln(n_persons) - 2 LL`. -/
theorem C6_parameter_count_aic_bic :
    (∀ (data : ℕ → ℕ → ℝ) (nP nI : ℕ) (g : GirthDichotomous) (mt : ModelType)
        (r : AnalysisResult), fit_model data nP nI g mt = .ok r →
      ((mt = ModelType.ONE_PL → r.n_parameters = nI) ∧
       (mt = ModelType.TWO_PL → r.n_parameters = 2 * nI) ∧
       (mt = ModelType.THREE_PL → r.n_parameters = 3 * nI) ∧
       r.aic = 2 * (r.n_parameters : ℝ) - 2 * r.log_likelihood ∧
       r.bic = (r.n_parameters : ℝ) * Real.log nP - 2 * r.log_likelihood)) ∧
    (∀ (data : ℕ → ℕ → Option ℤ) (nP nI : ℕ) (mt : ModelType) (um : Bool)
        (mode : EstimationMode) (orc : Option GirthPCM),
      (mt = ModelType.RSM →
        (fit_polytomous_model data nP nI mt um mode orc).n_parameters =
          nI + ((fit_polytomous_model data nP nI mt um mode orc).n_categories - 1)) ∧
      (mt = ModelType.PCM →
        (fit_polytomous_model data nP nI mt um mode orc).n_parameters =
          nI * (fit_polytomous_model data nP nI mt um mode orc).n_categories) ∧
      (fit_polytomous_model data nP nI mt um mode orc).aic =
        2 * ((fit_polytomous_model data nP nI mt um mode orc).n_parameters : ℝ) -
          2 * (fit_polytomous_model data nP nI mt um mode orc).log_likelihood ∧
      (fit_polytomous_model data nP nI mt um mode orc).bic =
        ((fit_polytomous_model data nP nI mt um mode orc).n_parameters : ℝ) *
            Real.log nP -
          2 * (fit_polytomous_model data nP nI mt um mode orc).log_likelihood) := by
  constructor
  · intro data nP nI g mt r hr
    cases mt <;> simp only [fit_model] at hr
    · cases hr
      exact ⟨fun _ => rfl, by simp, by simp, rfl, rfl⟩
    · cases hr
      exact ⟨by simp, fun _ => rfl, by simp, rfl, rfl⟩
    · cases hr
      exact ⟨by simp, by simp, fun _ => rfl, rfl, rfl⟩
    · exact absurd hr (by simp)
    · exact absurd hr (by simp)
  · intro data nP nI mt um mode orc
    refine ⟨fun hmt => ?_, fun hmt => ?_, rfl, rfl⟩
    · subst hmt
      rfl
    · subst hmt
      rfl

theorem C6_parameter_count_aic_bic_witness :
    (fit_model (fun _ _ => 0) 1 1 girthZero ModelType.ONE_PL).map
      AnalysisResult.n_parameters = .ok 1 ∧
    (fit_polytomous_model sampleData 1 2 ModelType.RSM false EstimationMode.AUTO
        none).n_parameters =
      2 + ((fit_polytomous_model sampleData 1 2 ModelType.RSM false
        EstimationMode.AUTO none).n_categories - 1) := by
  constructor
  · have hok : fit_model (fun _ _ => 0) 1 1 girthZero ModelType.ONE_PL =
        .ok (fitModelTail (fun _ _ => 0) 1 1 girthZero ModelType.ONE_PL
          girthZero.raschDifficulty (fun _ => 1) (fun _ => 0)
          girthZero.raschSEDifficulty none) := rfl
    rw [hok, Except.map]
    exact congrArg Except.ok
      ((C6_parameter_count_aic_bic.1 (fun _ _ => 0) 1 1 girthZero
        ModelType.ONE_PL _ hok).1 rfl)
  · exact (C6_parameter_count_aic_bic.2 sampleData 1 2 ModelType.RSM false
      EstimationMode.AUTO none).1 rfl

/-- C7: in MML mode, when the external optimizer call fails or times out
(oracle `none`) the fit still returns, with the AUTO heuristic difficulty and
thresholds and `converged=false`; on optimizer success it reports
`converged=true`. -/
theorem C7_mml_failure_falls_back_to_auto (data : ℕ → ℕ → Option ℤ) (nP nI : ℕ)
    (mt : ModelType) (um : Bool) (orc : Option GirthPCM) :
    (orc = none →
      (fit_polytomous_model data nP nI mt um EstimationMode.MML orc).converged = false ∧
      (fit_polytomous_model data nP nI mt um EstimationMode.MML orc).difficulty =
        (_estimate_parameters_fallback (dataNormalizedOpt data nP nI) nP nI
          (nCategoriesOf data nP nI) mt).1 ∧
      (fit_polytomous_model data nP nI mt um EstimationMode.MML orc).thresholds =
        (_estimate_parameters_fallback (dataNormalizedOpt data nP nI) nP nI
          (nCategoriesOf data nP nI) mt).2) ∧
    (∀ g : GirthPCM, orc = some g →
      (fit_polytomous_model data nP nI mt um EstimationMode.MML orc).converged = true) := by
  constructor
  · rintro rfl
    cases um <;> exact ⟨rfl, rfl, rfl⟩
  · rintro g rfl
    cases um <;> rfl

/-- A trivial girth PCM oracle output used in witnesses. -/
def girthPCMSample : GirthPCM where
  stepDifficulties := [[0], [0]]
  ability := fun _ => 0

theorem C7_mml_failure_falls_back_to_auto_witness :
    (fit_polytomous_model sampleData 1 2 ModelType.RSM false EstimationMode.MML
      none).converged = false ∧
    (fit_polytomous_model sampleData 1 2 ModelType.RSM false EstimationMode.MML
      (some girthPCMSample)).converged = true :=
  ⟨((C7_mml_failure_falls_back_to_auto sampleData 1 2 ModelType.RSM false none).1
      rfl).1,
   (C7_mml_failure_falls_back_to_auto sampleData 1 2 ModelType.RSM false
      (some girthPCMSample)).2 girthPCMSample rfl⟩

/-!
## `compute_reliability_statistics` (lines 921-1001) and
`_compute_person_standard_errors` (lines 1004-1051)
-/

/-- Population variance (numpy `np.var`). -/
def varRange (f : ℕ → ℝ) (n : ℕ) : ℝ :=
  meanRange (fun i => (f i - meanRange f n) ^ 2) n

/-- Items with a non-missing response from person `i` (column mask of
`~np.isnan(data[i, :])`). -/
def validRow (data : ℕ → ℕ → Option ℕ) (nI i : ℕ) : Finset ℕ :=
  (Finset.range nI).filter fun j => (data i j).isSome

/-- `mean_prop` in `_compute_person_standard_errors`
(`... if max_score > 0 else 0.5`). -/
def pseMeanProp (data : ℕ → ℕ → Option ℕ) (nP nI K : ℕ) : ℝ :=
  if 0 < nI * (K - 1) then
    meanRange (rowRawScore data nI) nP / ((nI : ℝ) * ((K : ℝ) - 1))
  else 0.5

/-- Test information for person `i`: summed un-floored category variances
over the person's non-missing items. -/
def pseInfo (data : ℕ → ℕ → Option ℕ) (nI : ℕ) (difficulty : ℕ → ℝ) (th : Thresh)
    (theta : ℕ → ℝ) (mt : ModelType) (i : ℕ) : ℝ :=
  ∑ j ∈ validRow data nI i,
    (fsExpectedSq data difficulty th theta mt i j -
      fsExpected data difficulty th theta mt i j ^ 2)

/-- `_compute_person_standard_errors(data, difficulty, thresholds, theta,
model_type)`. -/
def _compute_person_standard_errors (data : ℕ → ℕ → Option ℕ) (nP nI : ℕ)
    (difficulty : ℕ → ℝ) (th : Thresh) (theta : ℕ → ℝ) (mt : ModelType) :
    ℕ → ℝ :=
  fun i =>
    let info := pseInfo data nI difficulty th theta mt i
    let se := if 0 < info then 1 / Real.sqrt info else 1
    if (0.65 < pseMeanProp data nP nI th.nCats ∨
          pseMeanProp data nP nI th.nCats < 0.35) ∧
        0 < (validRow data nI i).card then
      se * 0.8
    else se

/-- `ReliabilityStatistics` dataclass. -/
structure ReliabilityStatistics where
  person_reliability : ℝ
  item_reliability : ℝ
  person_separation : ℝ
  item_separation : ℝ
  person_strata : ℝ
  item_strata : ℝ

/-- `compute_reliability_statistics(data, difficulty, thresholds, theta,
model_type)`. -/
def compute_reliability_statistics (data : ℕ → ℕ → Option ℕ) (nP nI : ℕ)
    (difficulty : ℕ → ℝ) (th : Thresh) (theta : ℕ → ℝ) (mt : ModelType) :
    ReliabilityStatistics :=
  let person_se := _compute_person_standard_errors data nP nI difficulty th theta mt
  let theta_variance := varRange theta nP
  let mean_se_squared := meanRange (fun i => person_se i ^ 2) nP
  let person_true_variance := max 0 (theta_variance - mean_se_squared)
  let person_reliability :=
    if 0 < theta_variance then person_true_variance / theta_variance else 0
  let rmse_person := Real.sqrt mean_se_squared
  let person_separation :=
    if 0 < rmse_person then Real.sqrt person_true_variance / rmse_person else 0
  let person_strata := (4 * person_separation + 1) / 3
  let item_variance := varRange difficulty nI
  let mean_item_se_squared := meanRange (fun _ => (1 / Real.sqrt nP) ^ 2) nI
  let item_true_variance := max 0 (item_variance - mean_item_se_squared)
  let item_reliability :=
    if 0 < item_variance then item_true_variance / item_variance else 0
  let rmse_item := Real.sqrt mean_item_se_squared
  let item_separation :=
    if 0 < rmse_item then Real.sqrt item_true_variance / rmse_item else 0
  let item_strata := (4 * item_separation + 1) / 3
  { person_reliability := npClip person_reliability 0 1
    item_reliability := npClip item_reliability 0 1
    person_separation := max 0 person_separation
    item_separation := max 0 item_separation
    person_strata := max 1 person_strata
    item_strata := max 1 item_strata }

theorem npClip_unit_mem (x : ℝ) : 0 ≤ npClip x 0 1 ∧ npClip x 0 1 ≤ 1 :=
  ⟨le_min zero_le_one (le_max_left 0 x), min_le_left 1 _⟩

/-- C8: for every input (degenerate zero-variance inputs included),
`compute_reliability_statistics` returns reliabilities in [0, 1],
separations ≥ 0 and strata ≥ 1. -/
theorem C8_reliability_bounds (data : ℕ → ℕ → Option ℕ) (nP nI : ℕ)
    (difficulty : ℕ → ℝ) (th : Thresh) (theta : ℕ → ℝ) (mt : ModelType) :
    0 ≤ (compute_reliability_statistics data nP nI difficulty th theta mt).person_reliability ∧
    (compute_reliability_statistics data nP nI difficulty th theta mt).person_reliability ≤ 1 ∧
    0 ≤ (compute_reliability_statistics data nP nI difficulty th theta mt).item_reliability ∧
    (compute_reliability_statistics data nP nI difficulty th theta mt).item_reliability ≤ 1 ∧
    0 ≤ (compute_reliability_statistics data nP nI difficulty th theta mt).person_separation ∧
    0 ≤ (compute_reliability_statistics data nP nI difficulty th theta mt).item_separation ∧
    1 ≤ (compute_reliability_statistics data nP nI difficulty th theta mt).person_strata ∧
    1 ≤ (compute_reliability_statistics data nP nI difficulty th theta mt).item_strata :=
  ⟨(npClip_unit_mem _).1, (npClip_unit_mem _).2,
   (npClip_unit_mem _).1, (npClip_unit_mem _).2,
   le_max_left 0 _, le_max_left 0 _, le_max_left 1 _, le_max_left 1 _⟩

/-!
## C9: the EAP abilities stay inside the quadrature range [-4, 4]
-/

theorem quadWeightRaw_pos (q : ℕ) : 0 < quadWeightRaw q :=
  div_pos (Real.exp_pos _) (Real.sqrt_pos.2 (by positivity))

theorem quadWeight_pos (q : ℕ) : 0 < quadWeight q :=
  div_pos (quadWeightRaw_pos q)
    (Finset.sum_pos (fun m _ => quadWeightRaw_pos m) ⟨0, by simp⟩)

theorem eapPosteriorRaw_pos (data : ℕ → ℕ → Option ℕ) (nI : ℕ) (mt : ModelType)
    (th : Thresh) (difficulty : ℕ → ℝ) (i q : ℕ) :
    0 < eapPosteriorRaw data nI mt th difficulty i q :=
  mul_pos (Real.exp_pos _) (quadWeight_pos q)

theorem eapPosterior_nonneg (data : ℕ → ℕ → Option ℕ) (nI : ℕ) (mt : ModelType)
    (th : Thresh) (difficulty : ℕ → ℝ) (i q : ℕ) :
    0 ≤ eapPosterior data nI mt th difficulty i q :=
  div_nonneg (eapPosteriorRaw_pos data nI mt th difficulty i q).le
    (Finset.sum_pos (fun m _ => eapPosteriorRaw_pos data nI mt th difficulty i m)
      ⟨0, by simp⟩).le

theorem eapPosterior_sum_one (data : ℕ → ℕ → Option ℕ) (nI : ℕ) (mt : ModelType)
    (th : Thresh) (difficulty : ℕ → ℝ) (i : ℕ) :
    ∑ q ∈ Finset.range 21, eapPosterior data nI mt th difficulty i q = 1 := by
  simp only [eapPosterior]
  rw [← Finset.sum_div]
  exact div_self (Finset.sum_pos
    (fun m _ => eapPosteriorRaw_pos data nI mt th difficulty i m) ⟨0, by simp⟩).ne'

theorem quadPoint_mem (q : ℕ) (hq : q < 21) : -4 ≤ quadPoint q ∧ quadPoint q ≤ 4 := by
  rw [quadPoint]
  have h20 : (q : ℝ) ≤ 20 := by
    have : q ≤ 20 := by omega
    exact_mod_cast this
  have h0 : (0 : ℝ) ≤ (q : ℝ) := Nat.cast_nonneg q
  constructor <;> nlinarith

/-- C9: every EAP ability is a convex combination of the 21 quadrature points
(nonnegative posterior weights summing to 1) and therefore lies in [-4, 4]. -/
theorem C9_eap_theta_in_range (data : ℕ → ℕ → Option ℕ) (nP nI : ℕ)
    (difficulty : ℕ → ℝ) (th : Thresh) (mt : ModelType) (i : ℕ) (hi : i < nP) :
    (-4 ≤ _estimate_abilities_polytomous data nP nI difficulty th mt i ∧
      _estimate_abilities_polytomous data nP nI difficulty th mt i ≤ 4) ∧
    (∀ q, 0 ≤ eapPosterior data nI mt th difficulty i q) ∧
    ∑ q ∈ Finset.range 21, eapPosterior data nI mt th difficulty i q = 1 := by
  refine ⟨?_, fun q => eapPosterior_nonneg data nI mt th difficulty i q,
    eapPosterior_sum_one data nI mt th difficulty i⟩
  have hsum := eapPosterior_sum_one data nI mt th difficulty i
  rw [_estimate_abilities_polytomous]
  constructor
  · have hle : ∀ q ∈ Finset.range 21,
        -4 * eapPosterior data nI mt th difficulty i q ≤
          quadPoint q * eapPosterior data nI mt th difficulty i q := by
      intro q hq
      exact mul_le_mul_of_nonneg_right
        (quadPoint_mem q (Finset.mem_range.1 hq)).1
        (eapPosterior_nonneg data nI mt th difficulty i q)
    calc (-4 : ℝ) = -4 * ∑ q ∈ Finset.range 21, eapPosterior data nI mt th difficulty i q := by
          rw [hsum]; ring
      _ = ∑ q ∈ Finset.range 21, -4 * eapPosterior data nI mt th difficulty i q := by
          rw [Finset.mul_sum]
      _ ≤ _ := Finset.sum_le_sum hle
  · have hle : ∀ q ∈ Finset.range 21,
        quadPoint q * eapPosterior data nI mt th difficulty i q ≤
          4 * eapPosterior data nI mt th difficulty i q := by
      intro q hq
      exact mul_le_mul_of_nonneg_right
        (quadPoint_mem q (Finset.mem_range.1 hq)).2
        (eapPosterior_nonneg data nI mt th difficulty i q)
    calc ∑ q ∈ Finset.range 21, quadPoint q * eapPosterior data nI mt th difficulty i q
        ≤ ∑ q ∈ Finset.range 21, 4 * eapPosterior data nI mt th difficulty i q :=
          Finset.sum_le_sum hle
      _ = 4 * ∑ q ∈ Finset.range 21, eapPosterior data nI mt th difficulty i q := by
          rw [Finset.mul_sum]
      _ = 4 := by rw [hsum]; ring

theorem C9_eap_theta_in_range_witness :
    (-4 ≤ _estimate_abilities_polytomous (fun _ _ => some 0) 1 2
        (fun _ => 0) (Thresh.rsm [0]) ModelType.RSM 0 ∧
      _estimate_abilities_polytomous (fun _ _ => some 0) 1 2
        (fun _ => 0) (Thresh.rsm [0]) ModelType.RSM 0 ≤ 4) ∧
    ∑ q ∈ Finset.range 21, eapPosterior (fun _ _ => some 0) 2 ModelType.RSM
      (Thresh.rsm [0]) (fun _ => 0) 0 q = 1 :=
  ⟨(C9_eap_theta_in_range (fun _ _ => some 0) 1 2 (fun _ => 0) (Thresh.rsm [0])
      ModelType.RSM 0 (by decide)).1,
   (C9_eap_theta_in_range (fun _ _ => some 0) 1 2 (fun _ => 0) (Thresh.rsm [0])
      ModelType.RSM 0 (by decide)).2.2⟩

/-!
## `compute_wright_map_data` (lines 766-822)
-/

/-- One entry of the stored `item_parameters["items"]` list. -/
structure WrightItem where
  name : String
  difficulty : ℝ
  thresholds : List ℝ

/-- One entry of the returned `persons` distribution. -/
structure WrightBar where
  theta : ℝ
  count : ℕ

/-- The dict returned by `compute_wright_map_data`. -/
structure WrightMapData where
  persons : List WrightBar
  items : List WrightItem
  min_logit : ℝ
  max_logit : ℝ

/-- `np.linspace(-4, 4, 33)[i]`: the 33 edges of the 32 histogram bins. -/
def binEdge (i : ℕ) : ℝ := -4 + 8 * (i : ℝ) / 32

/-- `np.histogram` bin membership: half-open bins, the last bin closed. -/
def inBin (i : ℕ) (t : ℝ) : Bool :=
  if i = 31 then decide (binEdge 31 ≤ t ∧ t ≤ binEdge 32)
  else decide (binEdge i ≤ t ∧ t < binEdge (i + 1))

/-- `hist[i]`: the number of thetas falling in bin `i`. -/
def histCount (thetas : List ℝ) (i : ℕ) : ℕ := (thetas.filter (inBin i)).length

/-- `person_distribution`: bin centers with their counts, zero bins dropped. -/
def person_distribution (thetas : List ℝ) : List WrightBar :=
  ((List.range 32).filter fun i => decide (0 < histCount thetas i)).map fun i =>
    ⟨(binEdge i + binEdge (i + 1)) / 2, histCount thetas i⟩

/-- `all_values`: the thetas followed by, per item, its difficulty and its
thresholds. -/
def allLogitValues (items : List WrightItem) (thetas : List ℝ) : List ℝ :=
  thetas ++ items.flatMap fun it => it.difficulty :: it.thresholds

/-- `min` of a non-empty python list (0 on the empty list, on which the
source never calls it). -/
def listMinD : List ℝ → ℝ
  | [] => 0
  | h :: t => t.foldl min h

/-- `max` of a non-empty python list. -/
def listMaxD : List ℝ → ℝ
  | [] => 0
  | h :: t => t.foldl max h

/-- `compute_wright_map_data(item_parameters, ability_estimates, model_type)`
(`model_type` is accepted and unused, as in the source). -/
def compute_wright_map_data (mt : ModelType) (items : List WrightItem)
    (thetas : List ℝ) : WrightMapData :=
  let allValues := allLogitValues items thetas
  { persons := person_distribution thetas
    items := items
    min_logit := if allValues = [] then -4 else min (-4) (listMinD allValues - 0.5)
    max_logit := if allValues = [] then 4 else max 4 (listMaxD allValues + 0.5) }

theorem inBin_iff (i : ℕ) (t : ℝ) :
    inBin i t = true ↔
      (if i = 31 then binEdge 31 ≤ t ∧ t ≤ binEdge 32
       else binEdge i ≤ t ∧ t < binEdge (i + 1)) := by
  rw [inBin]
  by_cases h : i = 31 <;> simp [h]

theorem binEdge_le_iff (i : ℕ) (t : ℝ) : binEdge i ≤ t ↔ (i : ℝ) ≤ 4 * t + 16 := by
  rw [binEdge]
  constructor <;> intro h <;> linarith

theorem lt_binEdge_iff (i : ℕ) (t : ℝ) : t < binEdge i ↔ 4 * t + 16 < (i : ℝ) := by
  rw [binEdge]
  constructor <;> intro h <;> linarith

theorem neg_four_le_binEdge (i : ℕ) : (-4 : ℝ) ≤ binEdge i := by
  rw [binEdge]
  have : (0 : ℝ) ≤ (i : ℝ) := Nat.cast_nonneg i
  linarith

theorem binEdge_le_four {i : ℕ} (h : i ≤ 32) : binEdge i ≤ 4 := by
  rw [binEdge]
  have : (i : ℝ) ≤ 32 := by exact_mod_cast h
  linarith

/-- The index of the unique histogram bin containing `t ∈ [-4, 4]`. -/
def binIndex (t : ℝ) : ℕ := min 31 ⌊4 * t + 16⌋.toNat

theorem mem_bin_iff_eq_binIndex {t : ℝ} (h1 : -4 ≤ t) (h2 : t ≤ 4) (j : ℕ) :
    (j < 32 ∧ inBin j t = true) ↔ j = binIndex t := by
  have hm0 : (0 : ℤ) ≤ ⌊4 * t + 16⌋ := Int.floor_nonneg.2 (by linarith)
  have hmc : ((⌊4 * t + 16⌋.toNat : ℕ) : ℝ) = ((⌊4 * t + 16⌋ : ℤ) : ℝ) := by
    exact_mod_cast Int.toNat_of_nonneg hm0
  constructor
  · rintro ⟨hj32, hbin⟩
    rw [inBin_iff] at hbin
    by_cases hj : j = 31
    · subst hj
      rw [if_pos rfl] at hbin
      have h31 : (31 : ℝ) ≤ 4 * t + 16 := (binEdge_le_iff 31 t).1 hbin.1
      have hfl : (31 : ℤ) ≤ ⌊4 * t + 16⌋ := Int.le_floor.2 (by exact_mod_cast h31)
      have : 31 ≤ ⌊4 * t + 16⌋.toNat := Int.le_toNat hm0 |>.2 hfl
      rw [binIndex, min_eq_left this]
    · rw [if_neg hj] at hbin
      have hlow : ((j : ℤ) : ℝ) ≤ 4 * t + 16 := by
        exact_mod_cast (binEdge_le_iff j t).1 hbin.1
      have hjm : (j : ℤ) ≤ ⌊4 * t + 16⌋ := Int.le_floor.2 hlow
      have hup : 4 * t + 16 < (j : ℝ) + 1 := by
        have := (lt_binEdge_iff (j + 1) t).1 hbin.2
        push_cast at this
        linarith
      have hmj : ⌊4 * t + 16⌋ < (j : ℤ) + 1 := by
        have hfle : ((⌊4 * t + 16⌋ : ℤ) : ℝ) ≤ 4 * t + 16 := Int.floor_le _
        exact_mod_cast lt_of_le_of_lt hfle hup
      have heq : ⌊4 * t + 16⌋ = (j : ℤ) := le_antisymm (by omega) hjm
      rw [binIndex, heq]
      omega
  · rintro rfl
    by_cases hM : 31 ≤ ⌊4 * t + 16⌋.toNat
    · have hbi : binIndex t = 31 := by rw [binIndex, min_eq_left hM]
      rw [hbi]
      refine ⟨by omega, ?_⟩
      rw [inBin_iff, if_pos rfl]
      constructor
      · rw [binEdge_le_iff]
        have : (31 : ℤ) ≤ ⌊4 * t + 16⌋ := (Int.le_toNat hm0).1 hM
        have h31 : ((31 : ℤ) : ℝ) ≤ ((⌊4 * t + 16⌋ : ℤ) : ℝ) := by exact_mod_cast this
        have := Int.floor_le (4 * t + 16)
        push_cast at h31 ⊢
        linarith
      · have h4 : binEdge 32 = 4 := by rw [binEdge]; norm_num
        rw [h4]
        exact h2
    · push_neg at hM
      have hbi : binIndex t = ⌊4 * t + 16⌋.toNat := by
        rw [binIndex, min_eq_right (by omega)]
      rw [hbi]
      refine ⟨by omega, ?_⟩
      rw [inBin_iff, if_neg (by omega)]
      constructor
      · rw [binEdge_le_iff, hmc]
        exact Int.floor_le _
      · rw [lt_binEdge_iff]
        push_cast [hmc]
        have := Int.lt_floor_add_one (4 * t + 16)
        push_cast at this
        linarith [hmc]


theorem filter_inBin_singleton {t : ℝ} (h1 : -4 ≤ t) (h2 : t ≤ 4) :
    ((Finset.range 32).filter fun i => inBin i t = true) = {binIndex t} := by
  ext j
  simp only [Finset.mem_filter, Finset.mem_range, Finset.mem_singleton]
  exact mem_bin_iff_eq_binIndex h1 h2 j

theorem inBin_eq_false_outside {t : ℝ} (h : ¬(-4 ≤ t ∧ t ≤ 4)) {j : ℕ}
    (hj : j < 32) : ¬ inBin j t = true := by
  rw [inBin_iff]
  rcases not_and_or.1 h with h | h <;> push_neg at h
  · by_cases hj31 : j = 31
    · rw [if_pos hj31]
      rintro ⟨hlt, -⟩
      have := neg_four_le_binEdge 31
      linarith
    · rw [if_neg hj31]
      rintro ⟨hlt, -⟩
      have := neg_four_le_binEdge j
      linarith
  · by_cases hj31 : j = 31
    · rw [if_pos hj31]
      rintro ⟨-, hle⟩
      have := binEdge_le_four (le_refl 32)
      linarith
    · rw [if_neg hj31]
      rintro ⟨-, hlt⟩
      have : binEdge (j + 1) ≤ 4 := binEdge_le_four (by omega)
      linarith

/-- Each theta in `[-4, 4]` is counted by exactly one of the 32 bins, each
theta outside by none. -/
theorem sum_inBin_indicator (t : ℝ) :
    (∑ i ∈ Finset.range 32, if inBin i t then 1 else 0) =
      if -4 ≤ t ∧ t ≤ 4 then 1 else 0 := by
  rw [Finset.sum_boole]
  by_cases h : -4 ≤ t ∧ t ≤ 4
  · rw [if_pos h, filter_inBin_singleton h.1 h.2]
    simp
  · rw [if_neg h]
    rw [Finset.filter_false_of_mem fun j hj =>
      inBin_eq_false_outside h (Finset.mem_range.1 hj)]
    simp

theorem sum_histCount (thetas : List ℝ) :
    ∑ i ∈ Finset.range 32, histCount thetas i =
      (thetas.filter fun t => decide (-4 ≤ t ∧ t ≤ 4)).length := by
  induction thetas with
  | nil => simp [histCount]
  | cons a l ih =>
      have hcons : ∀ i, histCount (a :: l) i =
          histCount l i + if inBin i a then 1 else 0 := by
        intro i
        rw [histCount, histCount, List.filter_cons]
        by_cases h : inBin i a <;> simp [h, Nat.add_comm]
      simp only [hcons]
      rw [Finset.sum_add_distrib, ih, sum_inBin_indicator a, List.filter_cons]
      by_cases h : -4 ≤ a ∧ a ≤ 4 <;> simp [h, Nat.add_comm]

theorem sum_filter_pos_map (f : ℕ → ℕ) (l : List ℕ) :
    (((l.filter fun i => decide (0 < f i)).map f).sum) = ((l.map f).sum) := by
  induction l with
  | nil => rfl
  | cons a l ih =>
      rw [List.filter_cons]
      by_cases h : 0 < f a
      · rw [if_pos (decide_eq_true h)]
        simp [ih]
      · have hz : f a = 0 := by omega
        rw [if_neg (by simpa using h)]
        simp [ih, hz]

/-- C10 as frozen is false on the code: with one person at theta 0 and one
item at difficulty 0 without thresholds, the claim's bound
`min(all observed) - 0.5 = -0.5` differs from the returned `min_logit`,
which the source clamps to `min(-4.0, min(all_values) - 0.5) = -4`. -/
theorem C10_counterexample_min_logit :
    (compute_wright_map_data ModelType.RSM
        [{ name := "Item_1", difficulty := 0, thresholds := [] }] [0]).min_logit ≠
      listMinD (allLogitValues
        [{ name := "Item_1", difficulty := 0, thresholds := [] }] [0]) - 0.5 := by
  have hall : allLogitValues
      [{ name := "Item_1", difficulty := 0, thresholds := [] }] [(0 : ℝ)] = [0, 0] := rfl
  have hmin : listMinD [(0 : ℝ), 0] = 0 := by
    rw [listMinD]
    simp
  rw [compute_wright_map_data]
  simp only [hall, hmin]
  rw [if_neg (by simp)]
  have : min (-4 : ℝ) (0 - 0.5) = -4 := by norm_num
  rw [this]
  norm_num

/-- C10 (amended): for non-empty persons/items input the axis bounds are the
observed extremes expanded by ±0.5 and further widened to at least
`[-4, 4]` (`min(-4, lo - 0.5)`, `max(4, hi + 0.5)`); the persons field is the
32-bin histogram of the thetas over `[-4, 4]`: its counts are positive and
account for every theta inside `[-4, 4]`. -/
theorem C10_wright_map_bounds_and_histogram (mt : ModelType)
    (items : List WrightItem) (thetas : List ℝ)
    (hne : allLogitValues items thetas ≠ []) :
    (compute_wright_map_data mt items thetas).min_logit =
      min (-4) (listMinD (allLogitValues items thetas) - 0.5) ∧
    (compute_wright_map_data mt items thetas).max_logit =
      max 4 (listMaxD (allLogitValues items thetas) + 0.5) ∧
    ((compute_wright_map_data mt items thetas).persons.map WrightBar.count).sum =
      (thetas.filter fun t => decide (-4 ≤ t ∧ t ≤ 4)).length ∧
    ∀ b ∈ (compute_wright_map_data mt items thetas).persons, 0 < b.count := by
  refine ⟨?_, ?_, ?_, ?_⟩
  · rw [compute_wright_map_data]
    exact if_neg hne
  · rw [compute_wright_map_data]
    exact if_neg hne
  · show ((person_distribution thetas).map WrightBar.count).sum = _
    rw [person_distribution, List.map_map]
    have hcomp : (WrightBar.count ∘ fun i =>
        WrightBar.mk ((binEdge i + binEdge (i + 1)) / 2) (histCount thetas i)) =
        histCount thetas := rfl
    rw [hcomp, sum_filter_pos_map (histCount thetas) (List.range 32),
      sum_map_list_range, sum_histCount]
  · intro b hb
    show 0 < b.count
    rw [show (compute_wright_map_data mt items thetas).persons =
      person_distribution thetas from rfl, person_distribution] at hb
    obtain ⟨i, hi, rfl⟩ := List.mem_map.1 hb
    have := List.mem_filter.1 hi
    simpa using of_decide_eq_true this.2

theorem C10_wright_map_bounds_and_histogram_witness :
    (compute_wright_map_data ModelType.RSM
        [{ name := "Item_1", difficulty := 0, thresholds := [] }] [0]).min_logit =
      min (-4) (listMinD (allLogitValues
        [{ name := "Item_1", difficulty := 0, thresholds := [] }] [0]) - 0.5) ∧
    ((compute_wright_map_data ModelType.RSM
        [{ name := "Item_1", difficulty := 0, thresholds := [] }] [0]).persons.map
      WrightBar.count).sum =
      (([0] : List ℝ).filter fun t => decide (-4 ≤ t ∧ t ≤ 4)).length := by
  have h := C10_wright_map_bounds_and_histogram ModelType.RSM
    [{ name := "Item_1", difficulty := 0, thresholds := [] }] [0] (by simp [allLogitValues])
  exact ⟨h.1, h.2.2.1⟩

/-!
## C4: the JMLE loop
-/

theorem jmleIter_difficulty (C : JmleCtx) (it : ℕ) (s : JmleState) :
    (jmleIter C it s).difficulty = jmleDifficultyNext C s := by
  rw [jmleIter]
  split <;> rfl

theorem jmleIter_theta_frozen (C : JmleCtx) (it : ℕ) (s : JmleState)
    (h : C.thetaLimit ≤ it) : (jmleIter C it s).theta = s.theta := by
  rw [jmleIter, if_neg (by omega)]

theorem jmleLoop_rounds_le (C : JmleCtx) (thr : ℝ) :
    ∀ (fuel it : ℕ) (s : JmleState), (jmleLoop C thr fuel it s).2.2 ≤ fuel := by
  intro fuel
  induction fuel with
  | zero => intro it s; exact le_refl 0
  | succ n ih =>
      intro it s
      rw [jmleLoop]
      split
      · exact Nat.one_le_iff_ne_zero.2 (Nat.succ_ne_zero n) |>.trans (Nat.le_refl _) |>.trans (by omega)
      · exact Nat.succ_le_succ (ih (it + 1) _)

theorem jmleLoop_exhausted (C : JmleCtx) (thr : ℝ) :
    ∀ (fuel it : ℕ) (s : JmleState),
      (jmleLoop C thr fuel it s).2.1 = false →
      (jmleLoop C thr fuel it s).2.2 = fuel := by
  intro fuel
  induction fuel with
  | zero => intro it s _; rfl
  | succ n ih =>
      intro it s
      rw [jmleLoop]
      split
      · intro h
        exact absurd h (by simp)
      · intro h
        exact congrArg Nat.succ (ih (it + 1) _ h)

theorem jmleTraceFrom_succ_left (C : JmleCtx) (it : ℕ) (s : JmleState) :
    ∀ m, jmleTraceFrom C it s (m + 1) =
      jmleTraceFrom C (it + 1) (jmleIter C it s) m := by
  intro m
  induction m with
  | zero => rfl
  | succ m ih =>
      show jmleIter C (it + (m + 1)) (jmleTraceFrom C it s (m + 1)) =
        jmleIter C ((it + 1) + m) (jmleTraceFrom C (it + 1) (jmleIter C it s) m)
      rw [ih, show it + (m + 1) = (it + 1) + m by omega]

theorem jmleLoop_converged_iff (C : JmleCtx) (thr : ℝ) :
    ∀ (fuel it : ℕ) (s : JmleState),
      (jmleLoop C thr fuel it s).2.1 = true ↔
      ∃ m, m < fuel ∧
        maxAbsChange (jmleTraceFrom C it s (m + 1)).difficulty
          (jmleTraceFrom C it s m).difficulty C.nI < thr := by
  intro fuel
  induction fuel with
  | zero =>
      intro it s
      constructor
      · intro h
        exact absurd h (by simp [jmleLoop])
      · rintro ⟨m, hm, -⟩
        omega
  | succ n ih =>
      intro it s
      rw [jmleLoop]
      by_cases hc : maxAbsChange (jmleIter C it s).difficulty s.difficulty C.nI < thr
      · rw [if_pos hc]
        constructor
        · intro _
          exact ⟨0, Nat.succ_pos n, by simpa [jmleTraceFrom] using hc⟩
        · intro _
          rfl
      · rw [if_neg hc]
        show (jmleLoop C thr n (it + 1) (jmleIter C it s)).2.1 = true ↔ _
        rw [ih (it + 1) (jmleIter C it s)]
        constructor
        · rintro ⟨m, hm, hsmall⟩
          refine ⟨m + 1, by omega, ?_⟩
          rwa [jmleTraceFrom_succ_left C it s (m + 1), jmleTraceFrom_succ_left C it s m]
        · rintro ⟨m, hm, hsmall⟩
          cases m with
          | zero => exact absurd (by simpa [jmleTraceFrom] using hsmall) hc
          | succ m =>
              refine ⟨m, by omega, ?_⟩
              rwa [jmleTraceFrom_succ_left C it s (m + 1),
                jmleTraceFrom_succ_left C it s m] at hsmall

/-- C4 (amended): with default arguments the JMLE loop executes at most 50
rounds; it returns `converged=true` exactly when some round among the first
50 changes the maximum absolute (re-centered) difficulty by less than 0.005,
in which case it stops at the first such round; `converged=false` is returned
exactly after exhausting all 50 rounds; and person abilities are updated only
while the round index is below `theta_iter_limit` (3 for ceiling/floor data,
5 otherwise). The per-round item (resp. person) updates apply the damped
clamped step only to items (persons) whose summed response variance exceeds
0.1 — see the counterexample for the unguarded reading of the claim. -/
theorem C4_jmle_budget_and_convergence (data : ℕ → ℕ → Option ℕ) (nP nI K : ℕ)
    (mt : ModelType) :
    (jmleLoop (mkJmleCtx data nP nI K mt) 0.005 50 0
        (jmleInitState data nP nI K mt)).2.2 ≤ 50 ∧
    ((_estimate_jmle data nP nI K mt).2.2.2 = true ↔
      ∃ m, m < 50 ∧
        maxAbsChange
          (jmleTraceFrom (mkJmleCtx data nP nI K mt) 0
            (jmleInitState data nP nI K mt) (m + 1)).difficulty
          (jmleTraceFrom (mkJmleCtx data nP nI K mt) 0
            (jmleInitState data nP nI K mt) m).difficulty nI < 0.005) ∧
    ((_estimate_jmle data nP nI K mt).2.2.2 = false →
      (jmleLoop (mkJmleCtx data nP nI K mt) 0.005 50 0
        (jmleInitState data nP nI K mt)).2.2 = 50) ∧
    (∀ (it : ℕ) (s : JmleState), (mkJmleCtx data nP nI K mt).thetaLimit ≤ it →
      (jmleIter (mkJmleCtx data nP nI K mt) it s).theta = s.theta) := by
  refine ⟨jmleLoop_rounds_le _ 0.005 50 0 _, ?_, ?_, ?_⟩
  · exact jmleLoop_converged_iff (mkJmleCtx data nP nI K mt) 0.005 50 0
      (jmleInitState data nP nI K mt)
  · intro h
    exact jmleLoop_exhausted _ 0.005 50 0 _ h
  · intro it s h
    exact jmleIter_theta_frozen _ it s h

/-!
### C4 counterexample input

`data = [[0, 1]]`: one person, two items, categories {0, 1}, RSM. At round 0
each item's summed variance is exactly the 0.1 floor, so the source's guard
`info_sum > 0.1` skips both difficulty updates, while the claim's unguarded
damped step prescribes a strictly positive movement for item 0.
-/

/-- The 1×2 matrix `[[0, 1]]` (already 0-based). -/
def jmleCX : ℕ → ℕ → Option ℕ := fun i j =>
  if i = 0 ∧ j = 0 then some 0 else if i = 0 ∧ j = 1 then some 1 else none

/-- The JMLE context `_estimate_jmle` builds on that matrix. -/
def cxCtx : JmleCtx := mkJmleCtx jmleCX 1 2 2 ModelType.RSM

/-- The state entering round 0 on that matrix. -/
def cxInit : JmleState := jmleInitState jmleCX 1 2 2 ModelType.RSM

/-- The claim's reading of one difficulty step, without the source's
`info_sum > 0.1` guard: every item moves by the clamped damped step. -/
def claimDifficultyStep (C : JmleCtx) (s : JmleState) (j : ℕ) : ℝ :=
  s.difficulty j -
    npClip (0.2 * (itemObs C j - itemExp C s j) / itemInfo C s j) (-0.3) 0.3

/-- The claim's difficulty vector after one round: unguarded step for every
item, then re-centering to mean 0. -/
def claimDifficultyRound (C : JmleCtx) (s : JmleState) (j : ℕ) : ℝ :=
  claimDifficultyStep C s j - meanRange (claimDifficultyStep C s) C.nI

theorem npClip_eq_self {x lo hi : ℝ} (h1 : lo ≤ x) (h2 : x ≤ hi) :
    npClip x lo hi = x := by
  rw [npClip, max_eq_right h1, min_eq_right h2]

theorem log99_nonneg : 0 ≤ Real.log 99 := Real.log_nonneg (by norm_num)

theorem log99_le : Real.log 99 ≤ 98 := by
  have := Real.log_le_sub_one_of_pos (show (0 : ℝ) < 99 by norm_num)
  linarith

theorem exp_log99 : Real.exp (Real.log 99) = 99 := Real.exp_log (by norm_num)

theorem exp_neg_log99 : Real.exp (-Real.log 99) = (99 : ℝ)⁻¹ := by
  rw [Real.exp_neg, exp_log99]

/-- Closed form of the category probabilities for two categories (a single
zero threshold) when the exponent is inside the clamp range. -/
theorem ccp_two_cats (theta beta : ℝ) (h1 : -700 ≤ theta - beta)
    (h2 : theta - beta ≤ 700) :
    compute_category_probability theta beta [0] 0 =
      1 / (1 + Real.exp (theta - beta)) ∧
    compute_category_probability theta beta [0] 1 =
      Real.exp (theta - beta) / (1 + Real.exp (theta - beta)) := by
  have hcs1 : categoryCumsum theta beta [0] 1 = theta - beta := by
    rw [categoryCumsum, Finset.sum_range_one, thresholdTerm]
    simp
  have hn0 : categoryNumerator theta beta [0] 0 = 1 := categoryNumerator_zero _ _ _
  have hn1 : categoryNumerator theta beta [0] 1 = Real.exp (theta - beta) := by
    rw [categoryNumerator, hcs1, npClip_eq_self h1 h2]
  have hden : categoryDenominator theta beta [0] = 1 + Real.exp (theta - beta) := by
    rw [categoryDenominator,
      show ([0] : List ℝ).length + 1 = 2 from rfl,
      Finset.sum_range_succ, Finset.sum_range_one, hn0, hn1]
  exact ⟨by rw [compute_category_probability_eq, hn0, hden],
    by rw [compute_category_probability_eq, hn1, hden]⟩

theorem cx_thresholds : cxCtx.th = Thresh.rsm [0] := by
  show (_estimate_parameters_fallback jmleCX 1 2 2 ModelType.RSM).2 = _
  rw [_estimate_parameters_fallback, if_pos rfl]
  have hcard : ((cells 1 2).filter fun c => cellAbove (jmleCX c.1 c.2) 0).card = 1 := by
    decide
  have hprop : propAboveAll jmleCX 1 2 0 = 1 / 2 := by
    rw [propAboveAll, hcard]
    norm_num
  have hraw : fallbackRSMThresholdRaw jmleCX 1 2 0 = 0 := by
    rw [fallbackRSMThresholdRaw, hprop,
      npClip_eq_self (by norm_num) (by norm_num), negLogOdds]
    norm_num
  have hlist : fallbackThresholdsRSM jmleCX 1 2 2 = [0] := by
    rw [fallbackThresholdsRSM, show (2 : ℕ) - 1 = 1 from rfl,
      show List.range 1 = [0] from rfl, List.map_cons, List.map_nil, hraw,
      List.map_cons, List.map_nil, listMean]
    norm_num
  rw [hlist]

theorem cx_itemThresh (j : ℕ) : itemThresholds cxCtx.mt cxCtx.th j = [0] := by
  rw [cx_thresholds]
  rfl

theorem cx_colNanmean0 : colNanmean jmleCX 1 0 = 0 := by
  rw [colNanmean, Finset.sum_range_one]
  have h1 : cellValR (jmleCX 0 0) = 0 := by
    simp [jmleCX, cellValR]
  have h2 : colValidCount jmleCX 1 0 = 1 := by decide
  rw [h1, h2]
  norm_num

theorem cx_colNanmean1 : colNanmean jmleCX 1 1 = 1 := by
  rw [colNanmean, Finset.sum_range_one]
  have h1 : cellValR (jmleCX 0 1) = 1 := by
    simp [jmleCX, cellValR]
  have h2 : colValidCount jmleCX 1 1 = 1 := by decide
  rw [h1, h2]
  norm_num

theorem cx_diff_raw0 : fallbackDifficultyRaw jmleCX 1 2 0 = Real.log 99 := by
  rw [fallbackDifficultyRaw, fallbackPropCorrect, cx_colNanmean0,
    show ((2 : ℕ) : ℝ) - 1 = 1 by norm_num, zero_div,
    show npClip (0 : ℝ) 0.01 0.99 = 0.01 by rw [npClip]; norm_num,
    negLogOdds, show (0.01 : ℝ) / (1 - 0.01) = (99 : ℝ)⁻¹ by norm_num,
    Real.log_inv, neg_neg]

theorem cx_diff_raw1 : fallbackDifficultyRaw jmleCX 1 2 1 = -Real.log 99 := by
  rw [fallbackDifficultyRaw, fallbackPropCorrect, cx_colNanmean1,
    show ((2 : ℕ) : ℝ) - 1 = 1 by norm_num, div_one,
    show npClip (1 : ℝ) 0.01 0.99 = 0.99 by rw [npClip]; norm_num,
    negLogOdds, show (0.99 : ℝ) / (1 - 0.99) = (99 : ℝ) by norm_num]

theorem cx_diff_mean : meanRange (fallbackDifficultyRaw jmleCX 1 2) 2 = 0 := by
  rw [meanRange, Finset.sum_range_succ, Finset.sum_range_one, cx_diff_raw0,
    cx_diff_raw1]
  norm_num

theorem cx_difficulty0 : cxInit.difficulty 0 = Real.log 99 := by
  show fallbackDifficulty jmleCX 1 2 2 0 = _
  rw [fallbackDifficulty, cx_diff_raw0, cx_diff_mean]
  ring

theorem cx_difficulty1 : cxInit.difficulty 1 = -Real.log 99 := by
  show fallbackDifficulty jmleCX 1 2 2 1 = _
  rw [fallbackDifficulty, cx_diff_raw1, cx_diff_mean]
  ring

theorem cx_rowScore0 : rowRawScore jmleCX 2 0 = 1 := by
  rw [rowRawScore, Finset.sum_range_succ, Finset.sum_range_one]
  have h0 : cellValR (jmleCX 0 0) = 0 := by simp [jmleCX, cellValR]
  have h1 : cellValR (jmleCX 0 1) = 1 := by simp [jmleCX, cellValR]
  rw [h0, h1]
  norm_num

theorem cx_meanProp : jmleMeanProp jmleCX 1 2 2 = 1 / 2 := by
  rw [jmleMeanProp, meanRange, Finset.sum_range_one, cx_rowScore0]
  norm_num

theorem cx_tRaw0 : jmleThetaRaw jmleCX 2 2 0 = 0 := by
  rw [jmleThetaRaw, cx_rowScore0,
    show (1 : ℝ) / (((2 : ℕ) : ℝ) * (((2 : ℕ) : ℝ) - 1)) = 1 / 2 by norm_num,
    show npClip ((1 : ℝ) / 2) 0.01 0.99 = 1 / 2 by rw [npClip]; norm_num]
  norm_num

theorem cx_tMean : meanRange (jmleThetaRaw jmleCX 2 2) 1 = 0 := by
  rw [meanRange, Finset.sum_range_one, cx_tRaw0]
  norm_num

theorem cx_tStd : stdRange (jmleThetaRaw jmleCX 2 2) 1 = 0 := by
  rw [stdRange]
  have h : meanRange (fun i => (jmleThetaRaw jmleCX 2 2 i -
      meanRange (jmleThetaRaw jmleCX 2 2) 1) ^ 2) 1 = 0 := by
    rw [meanRange, Finset.sum_range_one, cx_tRaw0, cx_tMean]
    norm_num
  rw [h, Real.sqrt_zero]

theorem cx_thetaScaled0 : jmleThetaScaled jmleCX 1 2 2 0 = 0 := by
  rw [jmleThetaScaled, if_neg (by rw [cx_tStd]; norm_num), cx_tRaw0]

theorem cx_theta0 : cxInit.theta 0 = 0 := by
  show jmleThetaInit jmleCX 1 2 2 0 = 0
  rw [jmleThetaInit, if_neg (by rw [cx_meanProp]; norm_num),
    if_neg (by rw [cx_meanProp]; norm_num)]
  show npClip (jmleThetaScaled jmleCX 1 2 2 0 -
    meanRange (jmleThetaScaled jmleCX 1 2 2) 1) (-4) 4 = 0
  have hmean : meanRange (jmleThetaScaled jmleCX 1 2 2) 1 = 0 := by
    rw [meanRange, Finset.sum_range_one, cx_thetaScaled0]
    norm_num
  rw [cx_thetaScaled0, hmean, sub_zero,
    show npClip (0 : ℝ) (-4) 4 = 0 by rw [npClip]; norm_num]

theorem cx_prob00 : jmleProb cxCtx cxInit 0 0 0 = 99 / 100 ∧
    jmleProb cxCtx cxInit 0 0 1 = 1 / 100 := by
  have hsub : cxInit.theta 0 - cxInit.difficulty 0 = -Real.log 99 := by
    rw [cx_theta0, cx_difficulty0]
    ring
  have h := ccp_two_cats (cxInit.theta 0) (cxInit.difficulty 0)
    (by rw [hsub]; have := log99_le; linarith)
    (by rw [hsub]; have := log99_nonneg; linarith)
  rw [hsub, exp_neg_log99] at h
  constructor
  · rw [jmleProb, cx_itemThresh, h.1]
    norm_num
  · rw [jmleProb, cx_itemThresh, h.2]
    norm_num

theorem cx_prob01 : jmleProb cxCtx cxInit 0 1 0 = 1 / 100 ∧
    jmleProb cxCtx cxInit 0 1 1 = 99 / 100 := by
  have hsub : cxInit.theta 0 - cxInit.difficulty 1 = Real.log 99 := by
    rw [cx_theta0, cx_difficulty1]
    ring
  have h := ccp_two_cats (cxInit.theta 0) (cxInit.difficulty 1)
    (by rw [hsub]; have := log99_nonneg; linarith)
    (by rw [hsub]; have := log99_le; linarith)
  rw [hsub, exp_log99] at h
  constructor
  · rw [jmleProb, cx_itemThresh, h.1]
    norm_num
  · rw [jmleProb, cx_itemThresh, h.2]
    norm_num

theorem cx_probSum (j : ℕ) : (∑ m ∈ Finset.range cxCtx.K,
    jmleProb cxCtx cxInit 0 j m) = 1 := by
  have h := sum_compute_category_probability (cxInit.theta 0)
    (cxInit.difficulty j) [0]
  rw [show ([0] : List ℝ).length + 1 = 2 from rfl] at h
  show (∑ m ∈ Finset.range 2, jmleProb cxCtx cxInit 0 j m) = 1
  calc (∑ m ∈ Finset.range 2, jmleProb cxCtx cxInit 0 j m)
      = ∑ m ∈ Finset.range 2, compute_category_probability (cxInit.theta 0)
          (cxInit.difficulty j) [0] m :=
        Finset.sum_congr rfl fun m _ => by rw [jmleProb, cx_itemThresh]
    _ = 1 := h

theorem cx_expVal00 : jmleExpVal cxCtx cxInit 0 0 = (1 / 100) / (1 + 1e-10) := by
  rw [jmleExpVal]
  show (∑ k ∈ Finset.range 2, (k : ℝ) * jmleProbN cxCtx cxInit 0 0 k) = _
  rw [Finset.sum_range_succ, Finset.sum_range_one, jmleProbN, jmleProbN,
    cx_probSum 0, cx_prob00.2]
  norm_num

theorem cx_expSq00 : jmleExpSq cxCtx cxInit 0 0 = (1 / 100) / (1 + 1e-10) := by
  rw [jmleExpSq]
  show (∑ k ∈ Finset.range 2, (k : ℝ) ^ 2 * jmleProbN cxCtx cxInit 0 0 k) = _
  rw [Finset.sum_range_succ, Finset.sum_range_one, jmleProbN, jmleProbN,
    cx_probSum 0, cx_prob00.2]
  norm_num

theorem cx_expVal01 : jmleExpVal cxCtx cxInit 0 1 = (99 / 100) / (1 + 1e-10) := by
  rw [jmleExpVal]
  show (∑ k ∈ Finset.range 2, (k : ℝ) * jmleProbN cxCtx cxInit 0 1 k) = _
  rw [Finset.sum_range_succ, Finset.sum_range_one, jmleProbN, jmleProbN,
    cx_probSum 1, cx_prob01.2]
  norm_num

theorem cx_expSq01 : jmleExpSq cxCtx cxInit 0 1 = (99 / 100) / (1 + 1e-10) := by
  rw [jmleExpSq]
  show (∑ k ∈ Finset.range 2, (k : ℝ) ^ 2 * jmleProbN cxCtx cxInit 0 1 k) = _
  rw [Finset.sum_range_succ, Finset.sum_range_one, jmleProbN, jmleProbN,
    cx_probSum 1, cx_prob01.2]
  norm_num

theorem cx_var00 : jmleVariance cxCtx cxInit 0 0 = 0.1 := by
  rw [jmleVariance, cx_expSq00, cx_expVal00, max_eq_right (by norm_num)]

theorem cx_var01 : jmleVariance cxCtx cxInit 0 1 = 0.1 := by
  rw [jmleVariance, cx_expSq01, cx_expVal01, max_eq_right (by norm_num)]

theorem cx_validPersons (j : ℕ) (hj : j < 2) : validPersons cxCtx j = {0} := by
  interval_cases j <;> decide

theorem cx_info0 : itemInfo cxCtx cxInit 0 = 0.1 := by
  rw [itemInfo, cx_validPersons 0 (by omega), Finset.sum_singleton, cx_var00]

theorem cx_info1 : itemInfo cxCtx cxInit 1 = 0.1 := by
  rw [itemInfo, cx_validPersons 1 (by omega), Finset.sum_singleton, cx_var01]

theorem cx_step0 : jmleDifficultyStep cxCtx cxInit 0 = Real.log 99 := by
  rw [jmleDifficultyStep, if_neg (by rw [cx_info0]; norm_num), cx_difficulty0]

theorem cx_step1 : jmleDifficultyStep cxCtx cxInit 1 = -Real.log 99 := by
  rw [jmleDifficultyStep, if_neg (by rw [cx_info1]; norm_num), cx_difficulty1]

theorem cx_step_mean : meanRange (jmleDifficultyStep cxCtx cxInit) 2 = 0 := by
  rw [meanRange, Finset.sum_range_succ, Finset.sum_range_one, cx_step0, cx_step1]
  norm_num

/-- On the counterexample input the source leaves item 0's difficulty at
`log 99` after round 0 (both guards fail). -/
theorem cx_trace1_difficulty0 :
    (jmleTraceFrom cxCtx 0 cxInit 1).difficulty 0 = Real.log 99 := by
  show (jmleIter cxCtx 0 cxInit).difficulty 0 = _
  rw [jmleIter_difficulty, jmleDifficultyNext, cx_step0,
    show cxCtx.nI = 2 from rfl, cx_step_mean]
  ring

theorem cx_itemObs0 : itemObs cxCtx 0 = 0 := by
  rw [itemObs, cx_validPersons 0 (by omega), Finset.sum_singleton]
  show cellValR (jmleCX 0 0) = 0
  simp [jmleCX, cellValR]

theorem cx_itemObs1 : itemObs cxCtx 1 = 1 := by
  rw [itemObs, cx_validPersons 1 (by omega), Finset.sum_singleton]
  show cellValR (jmleCX 0 1) = 1
  simp [jmleCX, cellValR]

theorem cx_itemExp0 : itemExp cxCtx cxInit 0 = (1 / 100) / (1 + 1e-10) := by
  rw [itemExp, cx_validPersons 0 (by omega), Finset.sum_singleton, cx_expVal00]

theorem cx_itemExp1 : itemExp cxCtx cxInit 1 = (99 / 100) / (1 + 1e-10) := by
  rw [itemExp, cx_validPersons 1 (by omega), Finset.sum_singleton, cx_expVal01]

theorem cx_claimStep0 : claimDifficultyStep cxCtx cxInit 0 =
    Real.log 99 + (1 / 50) / (1 + 1e-10) := by
  rw [claimDifficultyStep, cx_itemObs0, cx_itemExp0, cx_info0, cx_difficulty0]
  have hv : (0.2 : ℝ) * (0 - (1 / 100) / (1 + 1e-10)) / 0.1 =
      -((1 / 50) / (1 + 1e-10)) := by
    field_simp
    ring
  rw [hv, npClip_eq_self (by norm_num) (by norm_num)]
  ring

theorem cx_claimStep1 : claimDifficultyStep cxCtx cxInit 1 =
    -Real.log 99 - (1 / 50 + 2e-10) / (1 + 1e-10) := by
  rw [claimDifficultyStep, cx_itemObs1, cx_itemExp1, cx_info1, cx_difficulty1]
  have hv : (0.2 : ℝ) * (1 - (99 / 100) / (1 + 1e-10)) / 0.1 =
      (1 / 50 + 2e-10) / (1 + 1e-10) := by
    field_simp
    ring
  rw [hv, npClip_eq_self (by norm_num) (by norm_num)]

theorem cx_claimRound0 : claimDifficultyRound cxCtx cxInit 0 =
    Real.log 99 + (1 / 50 + 1e-10) / (1 + 1e-10) := by
  rw [claimDifficultyRound, show cxCtx.nI = 2 from rfl, meanRange,
    Finset.sum_range_succ, Finset.sum_range_one, cx_claimStep0, cx_claimStep1]
  push_cast
  field_simp
  ring

/-- C4 as frozen is false on the code: on the matrix `[[0, 1]]` (RSM, default
arguments) round 0 leaves item 0's difficulty unchanged at `log 99` because
each item's summed variance equals the 0.1 floor and the source only applies
the damped step when `info_sum > 0.1`, while the claim's unguarded
"update every item difficulty by a damped step of 0.2 (obs - exp) / variance,
clamped, re-centered" prescribes the strictly larger value
`log 99 + (1/50 + 1e-10) / (1 + 1e-10)`. -/
theorem C4_counterexample_unguarded_step :
    (jmleTraceFrom cxCtx 0 cxInit 1).difficulty 0 ≠
      claimDifficultyRound cxCtx cxInit 0 := by
  rw [cx_trace1_difficulty0, cx_claimRound0]
  intro h
  have h0 : (1 / 50 + 1e-10 : ℝ) / (1 + 1e-10) = 0 := by linarith
  norm_num at h0

theorem cx_thetaLimit : cxCtx.thetaLimit = 5 := by
  rw [JmleCtx.thetaLimit, if_neg]
  rintro (h | h)
  · have h2 : (0.65 : ℝ) < 1 / 2 := by
      have h3 : jmleMeanProp cxCtx.data cxCtx.nP cxCtx.nI cxCtx.K = 1 / 2 :=
        cx_meanProp
      rw [JmleCtx.isCeiling] at h
      rw [h3] at h
      exact h
    norm_num at h2
  · have h2 : (1 / 2 : ℝ) < 0.35 := by
      have h3 : jmleMeanProp cxCtx.data cxCtx.nP cxCtx.nI cxCtx.K = 1 / 2 :=
        cx_meanProp
      rw [JmleCtx.isFloor] at h
      rw [h3] at h
      exact h
    norm_num at h2

theorem C4_jmle_budget_and_convergence_witness :
    (jmleLoop (mkJmleCtx jmleCX 1 2 2 ModelType.RSM) 0.005 50 0
      (jmleInitState jmleCX 1 2 2 ModelType.RSM)).2.2 ≤ 50 ∧
    (jmleIter (mkJmleCtx jmleCX 1 2 2 ModelType.RSM) 5
        (jmleInitState jmleCX 1 2 2 ModelType.RSM)).theta =
      (jmleInitState jmleCX 1 2 2 ModelType.RSM).theta := by
  have h := C4_jmle_budget_and_convergence jmleCX 1 2 2 ModelType.RSM
  exact ⟨h.1, h.2.2.2 5 (jmleInitState jmleCX 1 2 2 ModelType.RSM)
    (le_of_eq cx_thetaLimit)⟩

end

end IRTWizard
